import Mathlib

/-!
Shallow embedding of the polyomino enumeration engine
(`src/poly_2d/poly.rs`, `src/poly_2d/shape/*.rs`, `src/poly_2d/rotation.rs`).

Coordinates are modelled as `Int` (the Rust code uses `i32` / `i8`; the
arithmetic on coordinates of shapes within range is exact, so no wrapping is
modelled there).  The bit-packed grid rows are Rust `u64`; the left shift
`0x1 << y` is modelled with the release-mode Rust semantics of an
overflowing shift: the shift amount is masked to the low 6 bits
(`y & 63`, i.e. `y mod 64`), which is where the capacity behaviour of the
packing width shows up.  Fallible constructors (`.unwrap()` on
`Iterator::min`/`max` of a possibly-empty iterator) are modelled with
`Option`.
-/

namespace Polycubes

/-- A 2-D integer point, Rust `(i32, i32)` / `Vector2<i32>`. `p.1` is Rust's
`p.0` (x), `p.2` is Rust's `p.1` (y). -/
abbrev Point := Int × Int

/-- `Vec2::rotate90` from `poly.rs`: `(-self.1, self.0)`. -/
def rotate90 (p : Point) : Point := (-p.2, p.1)

/-- `Vec2::rotate180` from `poly.rs`: `(-self.0, -self.1)`. -/
def rotate180 (p : Point) : Point := (-p.1, -p.2)

/-- `Vec2::rotate270` from `poly.rs`: `(self.1, -self.0)`. -/
def rotate270 (p : Point) : Point := (p.2, -p.1)

/-- `Vec2::translate` from `poly.rs`: componentwise addition. -/
def translate (p t : Point) : Point := (p.1 + t.1, p.2 + t.2)

/-- Componentwise addition of points/vectors (nalgebra `+`). -/
def padd (p q : Point) : Point := (p.1 + q.1, p.2 + q.2)

/-- Componentwise subtraction of points/vectors (nalgebra `-`). -/
def psub (p q : Point) : Point := (p.1 - q.1, p.2 - q.2)

/-- The single bit `0x1 << y` of a `u64` row, with the release-mode Rust
semantics of shift overflow: the shift amount is masked modulo 64. -/
def u64bit (y : Int) : Nat := 1 <<< ((y % 64).toNat)

/-- The Rust `as usize` cast of an integer (two's-complement wrap into the
64-bit unsigned range). -/
def usize (x : Int) : Nat := (x % (2 : Int) ^ 64).toNat

/-- `grid[i] |= 0x1 << y` on a row vector.  (Rust would panic on an
out-of-range index; every call site indexes within the freshly allocated
grid, where `List.set` and the Rust indexing agree.) -/
def orBit (g : List Nat) (i : Nat) (y : Int) : List Nat :=
  g.set i (g.getD i 0 ||| u64bit y)

/-- Pack points into rows indexed by the *first* coordinate, one bit per
*second* coordinate: `grid[p.0] |= 0x1 << p.1` (`BinShape` in `poly.rs`). -/
def packGridFst (rows : Nat) (pts : List Point) : List Nat :=
  pts.foldl (fun g p => orBit g (usize p.1) p.2) (List.replicate rows 0)

/-- Pack points into rows indexed by the *second* coordinate, one bit per
*first* coordinate: `grid[p.y] |= 0x1 << p.x` (`shape_with_grid.rs`,
`shape_minimal.rs`). -/
def packGridSnd (rows : Nat) (pts : List Point) : List Nat :=
  pts.foldl (fun g p => orBit g (usize p.2) p.1) (List.replicate rows 0)

/-- Rust `Vec<u64>` strict lexicographic comparison (`Ord::cmp == Less`):
element-wise left-to-right, a strict prefix is smaller. -/
def lexLt : List Nat → List Nat → Bool
  | [], [] => false
  | [], _ :: _ => true
  | _ :: _, [] => false
  | a :: as, b :: bs => if a < b then true else if b < a then false else lexLt as bs

/-- Rust `Iterator::max_by` keyed comparison: the accumulator is replaced
unless the new element compares strictly less, so among equal maxima the
*last* one is returned. -/
def maxByLast {α : Type} (key : α → List Nat) (l : List α) : Option α :=
  l.foldl
    (fun acc x =>
      match acc with
      | none => some x
      | some a => some (if lexLt (key x) (key a) then a else x))
    none

/-- Rust `Iterator::min_by` keyed comparison: the accumulator is replaced
only when the new element compares strictly less, so among equal minima the
*first* one is returned.  (`ShapeWithGrid::new`'s explicit loop with
`candidate.1 < b.1` has the same semantics.) -/
def minByFirst {α : Type} (key : α → List Nat) (l : List α) : Option α :=
  l.foldl
    (fun acc x =>
      match acc with
      | none => some x
      | some a => some (if lexLt (key x) (key a) then x else a))
    none

/-! ## `BinShape` (`poly.rs`) -/

/-- `BinShape` from `poly.rs`: raw points, winning bit grid, its dimensions. -/
structure BinShape where
  points : List Point
  grid : List Nat
  dimensions : Nat × Nat
deriving Repr, DecidableEq

/-- `impl PartialEq for BinShape`: equality is grid equality only. -/
def BinShape.beq (a b : BinShape) : Bool := a.grid == b.grid

/-- Candidate grid of the 0° rotation in `BinShape::canonical`:
translate by `(-min_0, -min_1)`, `dim_0` rows. -/
def binGrid0 (points : List Point) (min0 max0 min1 max1 : Int) : List Nat :=
  packGridFst ((max0 - min0 + 1).toNat)
    (points.map fun p => translate p (-min0, -min1))

/-- Candidate grid of the 90° rotation in `BinShape::canonical`:
rotate then translate by `(max_1, -min_0)`, `dim_1` rows. -/
def binGrid90 (points : List Point) (min0 max0 min1 max1 : Int) : List Nat :=
  packGridFst ((max1 - min1 + 1).toNat)
    (points.map fun p => translate (rotate90 p) (max1, -min0))

/-- Candidate grid of the 180° rotation in `BinShape::canonical`:
rotate then translate by `(max_0, max_1)`, `dim_0` rows. -/
def binGrid180 (points : List Point) (min0 max0 min1 max1 : Int) : List Nat :=
  packGridFst ((max0 - min0 + 1).toNat)
    (points.map fun p => translate (rotate180 p) (max0, max1))

/-- Candidate grid of the 270° rotation in `BinShape::canonical`:
rotate then translate by `(-min_1, max_0)`, `dim_1` rows. -/
def binGrid270 (points : List Point) (min0 max0 min1 max1 : Int) : List Nat :=
  packGridFst ((max1 - min1 + 1).toNat)
    (points.map fun p => translate (rotate270 p) (-min1, max0))

/-- The four candidate row sequences of `BinShape::canonical`, in the fixed
source order 0°, 90°, 180°, 270°. -/
def binCandidates (points : List Point) (min0 max0 min1 max1 : Int) : List (List Nat) :=
  [binGrid0 points min0 max0 min1 max1, binGrid90 points min0 max0 min1 max1,
   binGrid180 points min0 max0 min1 max1, binGrid270 points min0 max0 min1 max1]

/-- The body of `BinShape::canonical` after the (panicking) min/max
extraction: build the four grids, take the index of the grid `max_by`
selects, and return the corresponding grid and dimensions together with the
*raw input* point list.  The final wildcard models the unreachable
`_ => panic!()` arm. -/
def BinShape.canonicalCore (points : List Point) (min0 max0 min1 max1 : Int) : BinShape :=
  let dim0 := (max0 - min0 + 1).toNat
  let dim1 := (max1 - min1 + 1).toNat
  match maxByLast Prod.snd
      [(0, binGrid0 points min0 max0 min1 max1),
       (1, binGrid90 points min0 max0 min1 max1),
       (2, binGrid180 points min0 max0 min1 max1),
       (3, binGrid270 points min0 max0 min1 max1)] with
  | some (0, g) => ⟨points, g, (dim0, dim1)⟩
  | some (1, g) => ⟨points, g, (dim1, dim0)⟩
  | some (2, g) => ⟨points, g, (dim0, dim1)⟩
  | some (3, g) => ⟨points, g, (dim1, dim0)⟩
  | _ => ⟨points, [], (0, 0)⟩

/-- `BinShape::canonical` from `poly.rs`.  `none` models the panic of
`.min().unwrap()` / `.max().unwrap()` on an empty point list. -/
def BinShape.canonical? (points : List Point) : Option BinShape := do
  let min0 ← (points.map Prod.fst).min?
  let max0 ← (points.map Prod.fst).max?
  let min1 ← (points.map Prod.snd).min?
  let max1 ← (points.map Prod.snd).max?
  some (BinShape.canonicalCore points min0 max0 min1 max1)

/-- Placeholder value used to eliminate the provably-unreachable `none`
branch where Rust calls `BinShape::canonical` on a non-empty list. -/
def dummyBinShape : BinShape := ⟨[], [], (0, 0)⟩

/-! ## The generation expander (`generate_polys_of_size`, `poly.rs`) -/

/-- `MOVES` from `poly.rs`: the four unit axis moves, in source order. -/
def MOVES : List Point := [(0, 1), (0, -1), (1, 0), (-1, 0)]

/-- `itertools::unique`: keep the first occurrence of each element. -/
def firstDedup (l : List Point) : List Point :=
  l.foldl (fun acc p => if p ∈ acc then acc else acc ++ [p]) []

/-- The `possible_points` computation inside `generate_polys_of_size`:
all `point + move` candidates, first-occurrence deduplicated, keeping only
cells not already occupied by the shape. -/
def possiblePoints (prev : BinShape) : List Point :=
  (firstDedup (prev.points.flatMap fun p => MOVES.map fun m => (p.1 + m.1, p.2 + m.2))).filter
    (fun p => !(prev.points.contains p))

/-- The `n ≥ 2` body of `generate_polys_of_size`: for each previous shape,
canonicalize each grown candidate point set and push it unless an equal
(grid-identical) shape is already present; accumulate the `tried` counter
(`tried += possible_points.len()`).  Returns `(new_polys, tried)`. -/
def expandStep (prevPolys : List BinShape) : List BinShape × Nat :=
  prevPolys.foldl
    (fun acc prev =>
      let possible := possiblePoints prev
      let tried := acc.2 + possible.length
      let newPolys := possible.foldl
        (fun np newPoint =>
          let newPoly := (BinShape.canonical? (prev.points ++ [newPoint])).getD dummyBinShape
          if np.any (fun s => BinShape.beq s newPoly) then np else np ++ [newPoly])
        acc.1
      (newPolys, tried))
    ([], 0)

/-- Generation `n` of the driver loop in `generate_polys`: generation 1 is
the hard-coded single-point shape at the origin, and generation `n + 1` is
`generate_polys_of_size` applied to generation `n`.  (`genPolys 0` is never
requested; `generate_polys` iterates `n = 1..=max_n`.) -/
def genPolys : Nat → List BinShape
  | 0 => []
  | 1 => [(BinShape.canonical? [((0 : Int), (0 : Int))]).getD dummyBinShape]
  | n + 2 => (expandStep (genPolys (n + 1))).1

/-! ## `ShapeWithGrid` (`shape_with_grid.rs`) and its collaborators -/

/-- An exact integer 2×2 matrix, the model of nalgebra `Rotation2<i32>` /
`Rotation2<i8>` as used here (`Matrix2::new(a, b, c, d)` is row-major). -/
structure Mat2 where
  a : Int
  b : Int
  c : Int
  d : Int
deriving Repr, DecidableEq

/-- Matrix–vector multiplication `rotation * p`. -/
def Mat2.apply (m : Mat2) (p : Point) : Point :=
  (m.a * p.1 + m.b * p.2, m.c * p.1 + m.d * p.2)

/-- `ROTATIONS` / `ROTATIONS8` from `rotation.rs`: the four 90° ccw
rotation matrices in the fixed order 0°, 90°, 180°, 270°. -/
def ROTATIONS : List Mat2 :=
  [⟨1, 0, 0, 1⟩, ⟨0, -1, 1, 0⟩, ⟨-1, 0, 0, -1⟩, ⟨0, 1, -1, 0⟩]

/-- `BoundingBoxTwoPoints` from `bounding_box_two_points.rs`. -/
structure BoundingBoxTwoPoints where
  p0 : Point
  p1 : Point
deriving Repr, DecidableEq

/-- `BoundingBoxTwoPoints::from`: `p0` is the componentwise minimum of the
points, `p1` the componentwise maximum; `none` models the `.unwrap()` panic
on an empty slice. -/
def BoundingBoxTwoPoints.fromPoints? (points : List Point) : Option BoundingBoxTwoPoints := do
  let minx ← (points.map Prod.fst).min?
  let miny ← (points.map Prod.snd).min?
  let maxx ← (points.map Prod.fst).max?
  let maxy ← (points.map Prod.snd).max?
  some ⟨(minx, miny), (maxx, maxy)⟩

/-- `BoundingBoxTwoPoints::min`: componentwise minimum of the two corners. -/
def BoundingBoxTwoPoints.minv (b : BoundingBoxTwoPoints) : Point :=
  (min b.p0.1 b.p1.1, min b.p0.2 b.p1.2)

/-- `BoundingBoxTwoPoints::max`: componentwise maximum of the two corners. -/
def BoundingBoxTwoPoints.maxv (b : BoundingBoxTwoPoints) : Point :=
  (max b.p0.1 b.p1.1, max b.p0.2 b.p1.2)

/-- `impl Mul<&BoundingBoxTwoPoints> for &Rotation2<i32>`: rotate both
corners. -/
def BoundingBoxTwoPoints.mul (m : Mat2) (b : BoundingBoxTwoPoints) : BoundingBoxTwoPoints :=
  ⟨m.apply b.p0, m.apply b.p1⟩

/-- `impl Sub<Vector2<i32>> for BoundingBoxTwoPoints`: translate both
corners. -/
def BoundingBoxTwoPoints.sub (b : BoundingBoxTwoPoints) (v : Point) : BoundingBoxTwoPoints :=
  ⟨psub b.p0 v, psub b.p1 v⟩

/-- `rotate_shape` from `shape_with_grid.rs`: rotate the bounding box,
normalize it to the origin, and pack the rotated, normalized points into
rows indexed by `y` with one bit per `x`. -/
def rotateShape (points : List Point) (bounds : BoundingBoxTwoPoints) (rotation : Mat2) :
    BoundingBoxTwoPoints × List Nat :=
  let boundsRotated := BoundingBoxTwoPoints.mul rotation bounds
  let boundsRotatedMin := boundsRotated.minv
  let boundsRotatedNormalized := boundsRotated.sub boundsRotatedMin
  let boundsRotatedNormalizedMax := boundsRotatedNormalized.maxv
  let grid := packGridSnd (usize boundsRotatedNormalizedMax.2 + 1)
    (points.map fun p => psub (rotation.apply p) boundsRotatedMin)
  (boundsRotatedNormalized, grid)

/-- `ShapeWithGrid` from `shape_with_grid.rs`: raw points, winning
normalized bounds, winning grid. -/
structure ShapeWithGrid where
  points : List Point
  grid_bounds : BoundingBoxTwoPoints
  grid : List Nat
deriving Repr, DecidableEq

/-- `impl PartialEq for ShapeWithGrid`: equality is grid equality only. -/
def ShapeWithGrid.beq (a b : ShapeWithGrid) : Bool := a.grid == b.grid

/-- `impl Hash for ShapeWithGrid` feeds exactly `self.grid` to the hasher;
the hash is a function of this value. -/
def ShapeWithGrid.hashInput (s : ShapeWithGrid) : List Nat := s.grid

/-- `ShapeWithGrid::new`: try the four rotations in order, keep the first
candidate whose grid is strictly smaller than the best so far, store the
winner together with the *raw input* points.  `none` models the `.unwrap()`
panic of `BoundingBoxTwoPoints::from` on an empty list. -/
def ShapeWithGrid.new? (points : List Point) : Option ShapeWithGrid := do
  let bounds ← BoundingBoxTwoPoints.fromPoints? points
  let best := ROTATIONS.foldl
    (fun best rotation =>
      let candidate := rotateShape points bounds rotation
      match best with
      | some b => if lexLt candidate.2 b.2 then some candidate else some b
      | none => some candidate)
    none
  let b ← best
  some ⟨points, b.1, b.2⟩

/-! ## `ShapeMinimal` (`shape_minimal.rs`) -/

/-- One candidate of `ShapeMinimal::canonical_rotation`: the grid of the
shape under `rotation` (shifted to the origin by `-minp` before rotating,
then realigned by the offset computed from the rotated bounds), together
with the rotation and the realign offset. -/
def smCandidate (points : List Point) (minp maxp : Point) (rotation : Mat2) :
    List Nat × Mat2 × Point :=
  let bounds := psub maxp minp
  let rotatedBounds := rotation.apply bounds
  let realignOffset : Point := (-(min rotatedBounds.1 0), -(min rotatedBounds.2 0))
  let realignedBounds : Point := (|rotatedBounds.1|, |rotatedBounds.2|)
  let grid := packGridSnd (realignedBounds.2.toNat + 1)
    (points.map fun p => padd (rotation.apply (psub p minp)) realignOffset)
  (grid, rotation, realignOffset)

/-- `ShapeMinimal::canonical_rotation`: `min_by` over the four candidates,
compared by grid, first minimum kept; returns the winning rotation and
realign offset.  The `none` arm models the `.unwrap()`, unreachable since
`ROTATIONS` is non-empty. -/
def ShapeMinimal.canonicalRotation (points : List Point) (minp maxp : Point) :
    Mat2 × Point :=
  match minByFirst Prod.fst (ROTATIONS.map (smCandidate points minp maxp)) with
  | some (_, rotation, realignOffset) => (rotation, realignOffset)
  | none => (⟨1, 0, 0, 1⟩, (0, 0))

/-- `ShapeMinimal` from `shape_minimal.rs`: only the canonical point list
is stored. -/
structure ShapeMinimal where
  points : List Point
deriving Repr, DecidableEq

/-- The sort order of `ShapeMinimal::new`'s `sort_by`:
`a.x.cmp(&b.x).then(a.y.cmp(&b.y))`, as a boolean `≤`. -/
def pointLe (a b : Point) : Bool :=
  a.1 < b.1 || (a.1 == b.1 && a.2 ≤ b.2)

/-- `impl Hash for ShapeMinimal` feeds exactly `self.points` to the hasher;
the hash is a function of this value. -/
def ShapeMinimal.hashInput (s : ShapeMinimal) : List Point := s.points

/-- `ShapeMinimal::new`: compute the componentwise min/max, pick the
canonical rotation and offset, map every point through
`rot * (p - min) + realign_offset`, sort, and store.  `none` models the
`.unwrap()` panic on an empty list. -/
def ShapeMinimal.new? (points : List Point) : Option ShapeMinimal := do
  let minx ← (points.map Prod.fst).min?
  let miny ← (points.map Prod.snd).min?
  let maxx ← (points.map Prod.fst).max?
  let maxy ← (points.map Prod.snd).max?
  let minp : Point := (minx, miny)
  let maxp : Point := (maxx, maxy)
  let rotOff := ShapeMinimal.canonicalRotation points minp maxp
  let pts := points.map fun p => padd (rotOff.1.apply (psub p minp)) rotOff.2
  some ⟨pts.mergeSort pointLe⟩

/-! ## Order theory of the Rust `Vec<u64>` lexicographic comparison -/

theorem lexLt_irrefl (a : List Nat) : lexLt a a = false := by
  induction a with
  | nil => rfl
  | cons x xs ih => simp [lexLt, ih]

theorem lexLt_cons_iff {a b : Nat} {as bs : List Nat} :
    lexLt (a :: as) (b :: bs) = true ↔ a < b ∨ (a = b ∧ lexLt as bs = true) := by
  show (if a < b then true else if b < a then false else lexLt as bs) = true ↔ _
  split_ifs with h1 h2
  · simp [h1]
  · simp [h1, h2]
    omega
  · have hab : a = b := by omega
    simp [hab, lt_irrefl]

theorem lexLt_trans : ∀ (a b c : List Nat),
    lexLt a b = true → lexLt b c = true → lexLt a c = true := by
  intro a
  induction a with
  | nil =>
    intro b c hab hbc
    cases b with
    | nil => cases hab
    | cons y ys =>
      cases c with
      | nil => cases hbc
      | cons z zs => rfl
  | cons x xs ih =>
    intro b c hab hbc
    cases b with
    | nil => cases hab
    | cons y ys =>
      cases c with
      | nil => cases hbc
      | cons z zs =>
        rcases lexLt_cons_iff.mp hab with h1 | ⟨h1, h1t⟩ <;>
          rcases lexLt_cons_iff.mp hbc with h2 | ⟨h2, h2t⟩ <;>
            apply lexLt_cons_iff.mpr
        · exact Or.inl (by omega)
        · exact Or.inl (by omega)
        · exact Or.inl (by omega)
        · exact Or.inr ⟨by omega, ih ys zs h1t h2t⟩

theorem lexLt_cases : ∀ (a b : List Nat), lexLt a b = false → a = b ∨ lexLt b a = true := by
  intro a
  induction a with
  | nil =>
    intro b hab
    cases b with
    | nil => exact Or.inl rfl
    | cons y ys => cases hab
  | cons x xs ih =>
    intro b hab
    cases b with
    | nil => exact Or.inr rfl
    | cons y ys =>
      by_cases hxy : x = y
      · subst hxy
        have hxs : lexLt xs ys = false := by
          by_contra h
          have ht : lexLt (x :: xs) (x :: ys) = true :=
            lexLt_cons_iff.mpr (Or.inr ⟨rfl, by simpa using h⟩)
          rw [ht] at hab
          cases hab
        rcases ih ys hxs with h | h
        · exact Or.inl (by rw [h])
        · exact Or.inr (lexLt_cons_iff.mpr (Or.inr ⟨rfl, h⟩))
      · by_cases hlt : x < y
        · have ht : lexLt (x :: xs) (y :: ys) = true := lexLt_cons_iff.mpr (Or.inl hlt)
          rw [ht] at hab
          cases hab
        · exact Or.inr (lexLt_cons_iff.mpr (Or.inl (by omega)))

theorem lexLt_asymm {a b : List Nat} (h : lexLt a b = true) : lexLt b a = false := by
  by_contra hc
  have hba : lexLt b a = true := by simpa using hc
  have := lexLt_trans a b a h hba
  rw [lexLt_irrefl] at this
  cases this

theorem lexLt_antisymm {a b : List Nat} (hab : lexLt a b = false) (hba : lexLt b a = false) :
    a = b := by
  rcases lexLt_cases a b hab with h | h
  · exact h
  · rw [h] at hba; cases hba

/-- Transitivity of the complement (`a` not below `b`, `b` not below `c`,
hence `a` not below `c`). -/
theorem lexLt_notLt_trans {a b c : List Nat} (hab : lexLt a b = false)
    (hbc : lexLt b c = false) : lexLt a c = false := by
  by_contra hc'
  have hac : lexLt a c = true := by simpa using hc'
  rcases lexLt_cases a b hab with h | h
  · subst h; rw [hac] at hbc; cases hbc
  · have := lexLt_trans b a c h hac
    rw [this] at hbc; cases hbc

/-- `g` is a lexicographically smallest member of `l`. -/
def IsLexMin (g : List Nat) (l : List (List Nat)) : Prop :=
  g ∈ l ∧ ∀ h ∈ l, lexLt h g = false

/-- `g` is a lexicographically largest member of `l`. -/
def IsLexMax (g : List Nat) (l : List (List Nat)) : Prop :=
  g ∈ l ∧ ∀ h ∈ l, lexLt g h = false

instance (g : List Nat) (l : List (List Nat)) : Decidable (IsLexMin g l) := by
  unfold IsLexMin; infer_instance

instance (g : List Nat) (l : List (List Nat)) : Decidable (IsLexMax g l) := by
  unfold IsLexMax; infer_instance

theorem isLexMin_unique {g g' : List Nat} {l : List (List Nat)}
    (h : IsLexMin g l) (h' : IsLexMin g' l) : g = g' :=
  lexLt_antisymm (h'.2 g h.1) (h.2 g' h'.1)

theorem isLexMax_unique {g g' : List Nat} {l : List (List Nat)}
    (h : IsLexMax g l) (h' : IsLexMax g' l) : g = g' :=
  lexLt_antisymm (h.2 g' h'.1) (h'.2 g h.1)

/-! ## Specifications of the `min_by` / `max_by` folds -/

theorem minByFirst_cons {α : Type} (key : α → List Nat) (a : α) (l : List α) :
    minByFirst key (a :: l) =
      some (l.foldl (fun b x => if lexLt (key x) (key b) then x else b) a) := by
  show List.foldl _ (some a) l = _
  induction l generalizing a with
  | nil => rfl
  | cons x l ih => exact ih (if lexLt (key x) (key a) then x else a)

theorem maxByLast_cons {α : Type} (key : α → List Nat) (a : α) (l : List α) :
    maxByLast key (a :: l) =
      some (l.foldl (fun b x => if lexLt (key x) (key b) then b else x) a) := by
  show List.foldl _ (some a) l = _
  induction l generalizing a with
  | nil => rfl
  | cons x l ih => exact ih (if lexLt (key x) (key a) then a else x)

theorem foldl_pickMin_mem {α : Type} (key : α → List Nat) (l : List α) (a : α) :
    l.foldl (fun b x => if lexLt (key x) (key b) then x else b) a ∈ a :: l := by
  induction l generalizing a with
  | nil => simp
  | cons x l ih =>
    rw [List.foldl_cons]
    rcases List.mem_cons.mp (ih (if lexLt (key x) (key a) then x else a)) with h | h
    · rw [h]
      split <;> simp
    · simp [h]

theorem foldl_pickMin_le {α : Type} (key : α → List Nat) (l : List α) (a : α) :
    ∀ x ∈ a :: l,
      lexLt (key x) (key (l.foldl (fun b y => if lexLt (key y) (key b) then y else b) a)) =
        false := by
  induction l generalizing a with
  | nil =>
    intro x hx
    rcases List.mem_cons.mp hx with h | h
    · rw [h]; exact lexLt_irrefl _
    · cases h
  | cons y l ih =>
    intro x hx
    rw [List.foldl_cons]
    set p := if lexLt (key y) (key a) then y else a with hp
    have hxa : lexLt (key a) (key p) = false := by
      rw [hp]; split
      · exact lexLt_asymm (by assumption)
      · exact lexLt_irrefl _
    have hxy : lexLt (key y) (key p) = false := by
      rw [hp]; split
      · exact lexLt_irrefl _
      · simpa using (by assumption : ¬lexLt (key y) (key a) = true)
    have hple := ih p p (List.mem_cons_self _ _)
    rcases List.mem_cons.mp hx with h | h
    · rw [h]
      exact lexLt_notLt_trans hxa hple
    · rcases List.mem_cons.mp h with h2 | h2
      · rw [h2]
        exact lexLt_notLt_trans hxy hple
      · exact ih p x (List.mem_cons_of_mem _ h2)

theorem foldl_pickMax_mem {α : Type} (key : α → List Nat) (l : List α) (a : α) :
    l.foldl (fun b x => if lexLt (key x) (key b) then b else x) a ∈ a :: l := by
  induction l generalizing a with
  | nil => simp
  | cons x l ih =>
    rw [List.foldl_cons]
    rcases List.mem_cons.mp (ih (if lexLt (key x) (key a) then a else x)) with h | h
    · rw [h]
      split <;> simp
    · simp [h]

theorem foldl_pickMax_ge {α : Type} (key : α → List Nat) (l : List α) (a : α) :
    ∀ x ∈ a :: l,
      lexLt (key (l.foldl (fun b y => if lexLt (key y) (key b) then b else y) a)) (key x) =
        false := by
  induction l generalizing a with
  | nil =>
    intro x hx
    rcases List.mem_cons.mp hx with h | h
    · rw [h]; exact lexLt_irrefl _
    · cases h
  | cons y l ih =>
    intro x hx
    rw [List.foldl_cons]
    set p := if lexLt (key y) (key a) then a else y with hp
    have hpa : lexLt (key p) (key a) = false := by
      rw [hp]; split
      · exact lexLt_irrefl _
      · rcases lexLt_cases _ _ (by simpa using (by assumption : ¬lexLt (key y) (key a) = true))
          with h | h
        · rw [h]; exact lexLt_irrefl _
        · exact lexLt_asymm h
    have hpy : lexLt (key p) (key y) = false := by
      rw [hp]; split
      · exact lexLt_asymm (by assumption)
      · exact lexLt_irrefl _
    have hmp := ih p p (List.mem_cons_self _ _)
    rcases List.mem_cons.mp hx with h | h
    · rw [h]
      exact lexLt_notLt_trans hmp hpa
    · rcases List.mem_cons.mp h with h2 | h2
      · rw [h2]
        exact lexLt_notLt_trans hmp hpy
      · exact ih p x (List.mem_cons_of_mem _ h2)

theorem minByFirst_isLexMin {α : Type} (key : α → List Nat) (a : α) (l : List α) :
    ∃ m, minByFirst key (a :: l) = some m ∧ m ∈ a :: l ∧
      IsLexMin (key m) ((a :: l).map key) := by
  refine ⟨_, minByFirst_cons key a l, foldl_pickMin_mem key l a, ?_, ?_⟩
  · exact List.mem_map_of_mem key (foldl_pickMin_mem key l a)
  · intro h hh
    rcases List.mem_map.mp hh with ⟨x, hx, rfl⟩
    exact foldl_pickMin_le key l a x hx

theorem maxByLast_isLexMax {α : Type} (key : α → List Nat) (a : α) (l : List α) :
    ∃ m, maxByLast key (a :: l) = some m ∧ m ∈ a :: l ∧
      IsLexMax (key m) ((a :: l).map key) := by
  refine ⟨_, maxByLast_cons key a l, foldl_pickMax_mem key l a, ?_, ?_⟩
  · exact List.mem_map_of_mem key (foldl_pickMax_mem key l a)
  · intro h hh
    rcases List.mem_map.mp hh with ⟨x, hx, rfl⟩
    exact foldl_pickMax_ge key l a x hx

/-! ## Characterizations of the three canonicalizers' selection -/

theorem canonicalCore_grid_isLexMax (ps : List Point) (min0 max0 min1 max1 : Int) :
    IsLexMax (BinShape.canonicalCore ps min0 max0 min1 max1).grid
      (binCandidates ps min0 max0 min1 max1) := by
  obtain ⟨m, hm, hmem, hmax⟩ :=
    maxByLast_isLexMax Prod.snd ((0 : Nat), binGrid0 ps min0 max0 min1 max1)
      [(1, binGrid90 ps min0 max0 min1 max1), (2, binGrid180 ps min0 max0 min1 max1),
       (3, binGrid270 ps min0 max0 min1 max1)]
  have hmap : (((0 : Nat), binGrid0 ps min0 max0 min1 max1) ::
      [(1, binGrid90 ps min0 max0 min1 max1), (2, binGrid180 ps min0 max0 min1 max1),
       (3, binGrid270 ps min0 max0 min1 max1)]).map Prod.snd =
      binCandidates ps min0 max0 min1 max1 := rfl
  rw [hmap] at hmax
  simp only [List.mem_cons, List.not_mem_nil, or_false] at hmem
  rcases hmem with h | h | h | h <;>
    · subst h
      simp only [BinShape.canonicalCore, hm]
      exact hmax

/-- The four candidate grids of `ShapeWithGrid::new`, in rotation order. -/
def swgCandidates (ps : List Point) (bounds : BoundingBoxTwoPoints) : List (List Nat) :=
  ROTATIONS.map fun r => (rotateShape ps bounds r).2

theorem swg_fold_isLexMin (ps : List Point) (bounds : BoundingBoxTwoPoints) :
    ∃ m, (ROTATIONS.foldl
        (fun best rotation =>
          let candidate := rotateShape ps bounds rotation
          match best with
          | some b => if lexLt candidate.2 b.2 then some candidate else some b
          | none => some candidate)
        none) = some m ∧ m ∈ ROTATIONS.map (rotateShape ps bounds) ∧
      IsLexMin m.2 (swgCandidates ps bounds) := by
  have hstep : (fun (best : Option (BoundingBoxTwoPoints × List Nat)) rotation =>
      let candidate := rotateShape ps bounds rotation
      match best with
      | some b => if lexLt candidate.2 b.2 then some candidate else some b
      | none => some candidate) =
      fun acc rotation =>
        match acc with
        | none => some (rotateShape ps bounds rotation)
        | some a => some (if lexLt (Prod.snd (rotateShape ps bounds rotation)) (Prod.snd a)
            then rotateShape ps bounds rotation else a) := by
    funext acc r
    cases acc with
    | none => rfl
    | some a =>
      show (if lexLt (rotateShape ps bounds r).2 a.2 then some (rotateShape ps bounds r)
            else some a) =
          some (if lexLt (rotateShape ps bounds r).2 a.2 then rotateShape ps bounds r else a)
      split <;> rfl
  rw [hstep]
  have hfold : (ROTATIONS.foldl
      (fun acc rotation =>
        match acc with
        | none => some (rotateShape ps bounds rotation)
        | some a => some (if lexLt (Prod.snd (rotateShape ps bounds rotation)) (Prod.snd a)
            then rotateShape ps bounds rotation else a))
      none) = minByFirst Prod.snd (ROTATIONS.map (rotateShape ps bounds)) := by
    rw [minByFirst, List.foldl_map]
    rfl
  rw [hfold]
  obtain ⟨m, hm, hmem, hmin⟩ :=
    minByFirst_isLexMin Prod.snd (rotateShape ps bounds ⟨1, 0, 0, 1⟩)
      [rotateShape ps bounds ⟨0, -1, 1, 0⟩, rotateShape ps bounds ⟨-1, 0, 0, -1⟩,
       rotateShape ps bounds ⟨0, 1, -1, 0⟩]
  have hl : rotateShape ps bounds ⟨1, 0, 0, 1⟩ ::
      [rotateShape ps bounds ⟨0, -1, 1, 0⟩, rotateShape ps bounds ⟨-1, 0, 0, -1⟩,
       rotateShape ps bounds ⟨0, 1, -1, 0⟩] = ROTATIONS.map (rotateShape ps bounds) := rfl
  rw [hl] at hm hmem hmin
  refine ⟨m, hm, hmem, ?_⟩
  have hc : (ROTATIONS.map (rotateShape ps bounds)).map Prod.snd = swgCandidates ps bounds := by
    rw [List.map_map]
    rfl
  rwa [hc] at hmin

/-- The four candidate grids of `ShapeMinimal::canonical_rotation`, in
rotation order. -/
def smCandidates (ps : List Point) (minp maxp : Point) : List (List Nat) :=
  ROTATIONS.map fun r => (smCandidate ps minp maxp r).1

theorem sm_canonicalRotation_isLexMin (ps : List Point) (minp maxp : Point) :
    ∃ r, r ∈ ROTATIONS ∧
      ShapeMinimal.canonicalRotation ps minp maxp =
        (r, (smCandidate ps minp maxp r).2.2) ∧
      IsLexMin (smCandidate ps minp maxp r).1 (smCandidates ps minp maxp) := by
  obtain ⟨m, hm, hmem, hmin⟩ :=
    minByFirst_isLexMin Prod.fst (smCandidate ps minp maxp ⟨1, 0, 0, 1⟩)
      [smCandidate ps minp maxp ⟨0, -1, 1, 0⟩, smCandidate ps minp maxp ⟨-1, 0, 0, -1⟩,
       smCandidate ps minp maxp ⟨0, 1, -1, 0⟩]
  have hl : smCandidate ps minp maxp ⟨1, 0, 0, 1⟩ ::
      [smCandidate ps minp maxp ⟨0, -1, 1, 0⟩, smCandidate ps minp maxp ⟨-1, 0, 0, -1⟩,
       smCandidate ps minp maxp ⟨0, 1, -1, 0⟩] = ROTATIONS.map (smCandidate ps minp maxp) := rfl
  rw [hl] at hm hmem hmin
  obtain ⟨r, hr, hrm⟩ := List.mem_map.mp hmem
  refine ⟨r, hr, ?_, ?_⟩
  · rw [ShapeMinimal.canonicalRotation, hm, ← hrm]
    rfl
  · have hc : (ROTATIONS.map (smCandidate ps minp maxp)).map Prod.fst =
        smCandidates ps minp maxp := by
      rw [List.map_map]
      rfl
    rw [hc] at hmin
    rw [hrm]
    exact hmin

/-! ## Claim C1 -/

/-- C1 (amended): for every non-empty finite point set, each canonicalizer
considers the four 90°-rotations in the fixed order 0°, 90°, 180°, 270° and
packs each rotated-and-realigned point set into a bit-grid row sequence;
`ShapeWithGrid::new` and `ShapeMinimal::new` select the rotation whose row
sequence is lexicographically *smallest* among the four, but
`BinShape::canonical` selects the lexicographically *largest* (its `max_by`
keeps the last maximal candidate). -/
theorem c1_canonical_selection (ps : List Point) (m0 M0 m1 M1 : Int)
    (h0 : (ps.map Prod.fst).min? = some m0) (h1 : (ps.map Prod.fst).max? = some M0)
    (h2 : (ps.map Prod.snd).min? = some m1) (h3 : (ps.map Prod.snd).max? = some M1) :
    (∃ b, BinShape.canonical? ps = some b ∧
        IsLexMax b.grid (binCandidates ps m0 M0 m1 M1)) ∧
    (∃ s, ShapeWithGrid.new? ps = some s ∧
        IsLexMin s.grid (swgCandidates ps ⟨(m0, m1), (M0, M1)⟩)) ∧
    (∃ r, r ∈ ROTATIONS ∧
        ShapeMinimal.canonicalRotation ps (m0, m1) (M0, M1) =
          (r, (smCandidate ps (m0, m1) (M0, M1) r).2.2) ∧
        IsLexMin (smCandidate ps (m0, m1) (M0, M1) r).1
          (smCandidates ps (m0, m1) (M0, M1))) := by
  refine ⟨?_, ?_, ?_⟩
  · refine ⟨BinShape.canonicalCore ps m0 M0 m1 M1, ?_, canonicalCore_grid_isLexMax ps m0 M0 m1 M1⟩
    simp [BinShape.canonical?, h0, h1, h2, h3]
  · obtain ⟨m, hm, _, hmin⟩ := swg_fold_isLexMin ps ⟨(m0, m1), (M0, M1)⟩
    refine ⟨⟨ps, m.1, m.2⟩, ?_, hmin⟩
    have hb : BoundingBoxTwoPoints.fromPoints? ps = some ⟨(m0, m1), (M0, M1)⟩ := by
      simp [BoundingBoxTwoPoints.fromPoints?, h0, h1, h2, h3]
    simp [ShapeWithGrid.new?, hb, hm]
  · exact sm_canonicalRotation_isLexMin ps (m0, m1) (M0, M1)

/-- C1 counterexample: for the L-tromino `[(0,0), (1,0), (0,1)]`,
`BinShape::canonical` stores the grid `[3, 2]`, which is *not* the
lexicographically smallest of the four candidate row sequences
(`[1, 3]` is). -/
theorem c1_counterexample :
    (BinShape.canonical? [((0 : Int), (0 : Int)), (1, 0), (0, 1)]).map BinShape.grid =
      some [3, 2] ∧
    binCandidates [((0 : Int), (0 : Int)), (1, 0), (0, 1)] 0 1 0 1 =
      [[3, 1], [1, 3], [2, 3], [3, 2]] ∧
    ¬IsLexMin [3, 2] [[3, 1], [1, 3], [2, 3], [3, 2]] := by
  refine ⟨by decide, by decide, by decide⟩

/-- Witness for `c1_canonical_selection` at the L-tromino. -/
theorem c1_canonical_selection_witness :
    (∃ b, BinShape.canonical? [((0 : Int), (0 : Int)), (1, 0), (0, 1)] = some b ∧
        IsLexMax b.grid (binCandidates [((0 : Int), (0 : Int)), (1, 0), (0, 1)] 0 1 0 1)) ∧
    (∃ s, ShapeWithGrid.new? [((0 : Int), (0 : Int)), (1, 0), (0, 1)] = some s ∧
        IsLexMin s.grid
          (swgCandidates [((0 : Int), (0 : Int)), (1, 0), (0, 1)] ⟨(0, 0), (1, 1)⟩)) ∧
    (∃ r, r ∈ ROTATIONS ∧
        ShapeMinimal.canonicalRotation [((0 : Int), (0 : Int)), (1, 0), (0, 1)] (0, 0) (1, 1) =
          (r, (smCandidate [((0 : Int), (0 : Int)), (1, 0), (0, 1)] (0, 0) (1, 1) r).2.2) ∧
        IsLexMin (smCandidate [((0 : Int), (0 : Int)), (1, 0), (0, 1)] (0, 0) (1, 1) r).1
          (smCandidates [((0 : Int), (0 : Int)), (1, 0), (0, 1)] (0, 0) (1, 1))) :=
  c1_canonical_selection [((0 : Int), (0 : Int)), (1, 0), (0, 1)] 0 1 0 1
    (by decide) (by decide) (by decide) (by decide)

/-! ## Claim C3: rotation invariance of `BinShape::canonical` -/

theorem foldl_min_neg (xs : List Int) : ∀ x : Int,
    ((xs.map fun v => -v).foldl min (-x)) = -(xs.foldl max x) := by
  induction xs with
  | nil => intro x; rfl
  | cons y ys ih =>
    intro x
    simp only [List.map_cons, List.foldl_cons]
    rw [min_neg_neg]
    exact ih (max x y)

theorem foldl_max_neg (xs : List Int) : ∀ x : Int,
    ((xs.map fun v => -v).foldl max (-x)) = -(xs.foldl min x) := by
  induction xs with
  | nil => intro x; rfl
  | cons y ys ih =>
    intro x
    simp only [List.map_cons, List.foldl_cons]
    rw [max_neg_neg]
    exact ih (min x y)

theorem min?_map_neg (l : List Int) : (l.map fun v => -v).min? = l.max?.map fun v => -v := by
  cases l with
  | nil => rfl
  | cons x xs =>
    show some ((xs.map fun v => -v).foldl min (-x)) = some (-(xs.foldl max x))
    rw [foldl_min_neg]

theorem max?_map_neg (l : List Int) : (l.map fun v => -v).max? = l.min?.map fun v => -v := by
  cases l with
  | nil => rfl
  | cons x xs =>
    show some ((xs.map fun v => -v).foldl max (-x)) = some (-(xs.foldl min x))
    rw [foldl_max_neg]

theorem binGrid0_rot90 (ps : List Point) (m0 M0 m1 M1 : Int) :
    binGrid0 (ps.map rotate90) (-M1) (-m1) m0 M0 = binGrid90 ps m0 M0 m1 M1 := by
  unfold binGrid0 binGrid90
  have hrows : ((-m1) - (-M1) + 1).toNat = (M1 - m1 + 1).toNat := by omega
  rw [hrows, List.map_map]
  apply congrArg
  apply List.map_congr_left
  intro p _
  simp [Function.comp, translate, rotate90, Prod.ext_iff]
  try omega

theorem binGrid90_rot90 (ps : List Point) (m0 M0 m1 M1 : Int) :
    binGrid90 (ps.map rotate90) (-M1) (-m1) m0 M0 = binGrid180 ps m0 M0 m1 M1 := by
  unfold binGrid90 binGrid180
  rw [List.map_map]
  apply congrArg
  apply List.map_congr_left
  intro p _
  simp [Function.comp, translate, rotate90, rotate180, Prod.ext_iff]
  try omega

theorem binGrid180_rot90 (ps : List Point) (m0 M0 m1 M1 : Int) :
    binGrid180 (ps.map rotate90) (-M1) (-m1) m0 M0 = binGrid270 ps m0 M0 m1 M1 := by
  unfold binGrid180 binGrid270
  have hrows : ((-m1) - (-M1) + 1).toNat = (M1 - m1 + 1).toNat := by omega
  rw [hrows, List.map_map]
  apply congrArg
  apply List.map_congr_left
  intro p _
  simp [Function.comp, translate, rotate90, rotate180, rotate270, Prod.ext_iff]
  try omega

theorem binGrid270_rot90 (ps : List Point) (m0 M0 m1 M1 : Int) :
    binGrid270 (ps.map rotate90) (-M1) (-m1) m0 M0 = binGrid0 ps m0 M0 m1 M1 := by
  unfold binGrid270 binGrid0
  rw [List.map_map]
  apply congrArg
  apply List.map_congr_left
  intro p _
  simp [Function.comp, translate, rotate90, rotate270, Prod.ext_iff]
  try omega

/-- Rotating the input by 90° cyclically permutes the four candidate grids. -/
theorem binCandidates_rot90 (ps : List Point) (m0 M0 m1 M1 : Int) :
    binCandidates (ps.map rotate90) (-M1) (-m1) m0 M0 =
      [binGrid90 ps m0 M0 m1 M1, binGrid180 ps m0 M0 m1 M1,
       binGrid270 ps m0 M0 m1 M1, binGrid0 ps m0 M0 m1 M1] := by
  unfold binCandidates
  rw [binGrid0_rot90, binGrid90_rot90, binGrid180_rot90, binGrid270_rot90]

theorem isLexMax_rot4 {g a b c d : List Nat} (h : IsLexMax g [b, c, d, a]) :
    IsLexMax g [a, b, c, d] := by
  obtain ⟨hm, hb⟩ := h
  constructor
  · simp only [List.mem_cons, List.not_mem_nil, or_false] at hm ⊢
    tauto
  · intro x hx
    apply hb
    simp only [List.mem_cons, List.not_mem_nil, or_false] at hx ⊢
    tauto

theorem bin_grid_map_rot90 (ps : List Point) (h : ps ≠ []) :
    (BinShape.canonical? (ps.map rotate90)).map BinShape.grid =
      (BinShape.canonical? ps).map BinShape.grid := by
  obtain ⟨p, l, rfl⟩ := List.exists_cons_of_ne_nil h
  obtain ⟨m0, h0⟩ : ∃ m, ((p :: l).map Prod.fst).min? = some m := ⟨_, rfl⟩
  obtain ⟨M0, h1⟩ : ∃ m, ((p :: l).map Prod.fst).max? = some m := ⟨_, rfl⟩
  obtain ⟨m1, h2⟩ : ∃ m, ((p :: l).map Prod.snd).min? = some m := ⟨_, rfl⟩
  obtain ⟨M1, h3⟩ : ∃ m, ((p :: l).map Prod.snd).max? = some m := ⟨_, rfl⟩
  have hfst : ((p :: l).map rotate90).map Prod.fst = ((p :: l).map Prod.snd).map fun v => -v := by
    rw [List.map_map, List.map_map]
    rfl
  have hsnd : ((p :: l).map rotate90).map Prod.snd = (p :: l).map Prod.fst := by
    rw [List.map_map]
    rfl
  have h0r : (((p :: l).map rotate90).map Prod.fst).min? = some (-M1) := by
    rw [hfst, min?_map_neg, h3]
    rfl
  have h1r : (((p :: l).map rotate90).map Prod.fst).max? = some (-m1) := by
    rw [hfst, max?_map_neg, h2]
    rfl
  have h2r : (((p :: l).map rotate90).map Prod.snd).min? = some m0 := by
    rw [hsnd, h0]
  have h3r : (((p :: l).map rotate90).map Prod.snd).max? = some M0 := by
    rw [hsnd, h1]
  have hleft : BinShape.canonical? ((p :: l).map rotate90) =
      some (BinShape.canonicalCore ((p :: l).map rotate90) (-M1) (-m1) m0 M0) := by
    simp only [BinShape.canonical?, Option.bind_eq_bind, h0r, h1r, h2r, h3r, Option.some_bind]
  have hright : BinShape.canonical? (p :: l) =
      some (BinShape.canonicalCore (p :: l) m0 M0 m1 M1) := by
    simp only [BinShape.canonical?, Option.bind_eq_bind, h0, h1, h2, h3, Option.some_bind]
  rw [hleft, hright]
  have hmaxL := canonicalCore_grid_isLexMax ((p :: l).map rotate90) (-M1) (-m1) m0 M0
  rw [binCandidates_rot90] at hmaxL
  have hmaxL2 : IsLexMax (BinShape.canonicalCore ((p :: l).map rotate90) (-M1) (-m1) m0 M0).grid
      (binCandidates (p :: l) m0 M0 m1 M1) := isLexMax_rot4 hmaxL
  have hmaxR := canonicalCore_grid_isLexMax (p :: l) m0 M0 m1 M1
  simp only [Option.map_some']
  exact congrArg some (isLexMax_unique hmaxL2 hmaxR)

theorem map_rotate180_eq (ps : List Point) :
    ps.map rotate180 = (ps.map rotate90).map rotate90 := by
  rw [List.map_map]
  apply List.map_congr_left
  intro p _
  simp [Function.comp, rotate90, rotate180]

theorem map_rotate270_eq (ps : List Point) :
    ps.map rotate270 = ((ps.map rotate90).map rotate90).map rotate90 := by
  rw [List.map_map, List.map_map]
  apply List.map_congr_left
  intro p _
  simp [Function.comp, rotate90, rotate270]

/-- C3: canonicalization is rotation-invariant.  For every non-empty point
set, applying any of the three non-trivial 90°-rotations to every input
point before canonicalizing yields the identical canonical grid (hence an
equal `BinShape`, since equality compares only grids). -/
theorem c3_rotation_invariance (ps : List Point) (h : ps ≠ []) :
    ((BinShape.canonical? (ps.map rotate90)).map BinShape.grid =
        (BinShape.canonical? ps).map BinShape.grid) ∧
    ((BinShape.canonical? (ps.map rotate180)).map BinShape.grid =
        (BinShape.canonical? ps).map BinShape.grid) ∧
    ((BinShape.canonical? (ps.map rotate270)).map BinShape.grid =
        (BinShape.canonical? ps).map BinShape.grid) := by
  have h1 : ps.map rotate90 ≠ [] := by
    simp only [ne_eq, List.map_eq_nil_iff]
    exact h
  have h2 : (ps.map rotate90).map rotate90 ≠ [] := by
    simp only [ne_eq, List.map_eq_nil_iff]
    exact h
  have e90 := bin_grid_map_rot90 ps h
  have e180 : (BinShape.canonical? (ps.map rotate180)).map BinShape.grid =
      (BinShape.canonical? ps).map BinShape.grid := by
    rw [map_rotate180_eq, bin_grid_map_rot90 _ h1, e90]
  have e270 : (BinShape.canonical? (ps.map rotate270)).map BinShape.grid =
      (BinShape.canonical? ps).map BinShape.grid := by
    rw [map_rotate270_eq, bin_grid_map_rot90 _ h2, bin_grid_map_rot90 _ h1, e90]
  exact ⟨e90, e180, e270⟩

/-- Witness for `c3_rotation_invariance` at the L-tromino. -/
theorem c3_rotation_invariance_witness :
    (([((0 : Int), (0 : Int)), (1, 0), (0, 1)] : List Point) ≠ []) ∧
    (((BinShape.canonical? (([((0 : Int), (0 : Int)), (1, 0), (0, 1)] : List Point).map
          rotate90)).map BinShape.grid =
        (BinShape.canonical? [((0 : Int), (0 : Int)), (1, 0), (0, 1)]).map BinShape.grid) ∧
    ((BinShape.canonical? (([((0 : Int), (0 : Int)), (1, 0), (0, 1)] : List Point).map
          rotate180)).map BinShape.grid =
        (BinShape.canonical? [((0 : Int), (0 : Int)), (1, 0), (0, 1)]).map BinShape.grid) ∧
    ((BinShape.canonical? (([((0 : Int), (0 : Int)), (1, 0), (0, 1)] : List Point).map
          rotate270)).map BinShape.grid =
        (BinShape.canonical? [((0 : Int), (0 : Int)), (1, 0), (0, 1)]).map BinShape.grid)) :=
  ⟨by decide, c3_rotation_invariance [((0 : Int), (0 : Int)), (1, 0), (0, 1)] (by decide)⟩

/-! ## Claim C9: translation invariance -/

theorem foldl_min_add (xs : List Int) (c : Int) : ∀ x : Int,
    ((xs.map fun v => v + c).foldl min (x + c)) = (xs.foldl min x) + c := by
  induction xs with
  | nil => intro x; rfl
  | cons y ys ih =>
    intro x
    simp only [List.map_cons, List.foldl_cons]
    rw [min_add_add_right]
    exact ih (min x y)

theorem foldl_max_add (xs : List Int) (c : Int) : ∀ x : Int,
    ((xs.map fun v => v + c).foldl max (x + c)) = (xs.foldl max x) + c := by
  induction xs with
  | nil => intro x; rfl
  | cons y ys ih =>
    intro x
    simp only [List.map_cons, List.foldl_cons]
    rw [max_add_add_right]
    exact ih (max x y)

theorem min?_map_add (l : List Int) (c : Int) :
    (l.map fun v => v + c).min? = l.min?.map fun v => v + c := by
  cases l with
  | nil => rfl
  | cons x xs =>
    show some ((xs.map fun v => v + c).foldl min (x + c)) = some ((xs.foldl min x) + c)
    rw [foldl_min_add]

theorem max?_map_add (l : List Int) (c : Int) :
    (l.map fun v => v + c).max? = l.max?.map fun v => v + c := by
  cases l with
  | nil => rfl
  | cons x xs =>
    show some ((xs.map fun v => v + c).foldl max (x + c)) = some ((xs.foldl max x) + c)
    rw [foldl_max_add]

theorem binGrid0_translate (ps : List Point) (t : Point) (m0 M0 m1 M1 : Int) :
    binGrid0 (ps.map fun p => translate p t) (m0 + t.1) (M0 + t.1) (m1 + t.2) (M1 + t.2) =
      binGrid0 ps m0 M0 m1 M1 := by
  unfold binGrid0
  have hrows : ((M0 + t.1) - (m0 + t.1) + 1).toNat = (M0 - m0 + 1).toNat := by omega
  rw [hrows, List.map_map]
  apply congrArg
  apply List.map_congr_left
  intro p _
  simp [Function.comp, translate, Prod.ext_iff]
  try omega

theorem binGrid90_translate (ps : List Point) (t : Point) (m0 M0 m1 M1 : Int) :
    binGrid90 (ps.map fun p => translate p t) (m0 + t.1) (M0 + t.1) (m1 + t.2) (M1 + t.2) =
      binGrid90 ps m0 M0 m1 M1 := by
  unfold binGrid90
  have hrows : ((M1 + t.2) - (m1 + t.2) + 1).toNat = (M1 - m1 + 1).toNat := by omega
  rw [hrows, List.map_map]
  apply congrArg
  apply List.map_congr_left
  intro p _
  simp [Function.comp, translate, rotate90, Prod.ext_iff]
  try omega

theorem binGrid180_translate (ps : List Point) (t : Point) (m0 M0 m1 M1 : Int) :
    binGrid180 (ps.map fun p => translate p t) (m0 + t.1) (M0 + t.1) (m1 + t.2) (M1 + t.2) =
      binGrid180 ps m0 M0 m1 M1 := by
  unfold binGrid180
  have hrows : ((M0 + t.1) - (m0 + t.1) + 1).toNat = (M0 - m0 + 1).toNat := by omega
  rw [hrows, List.map_map]
  apply congrArg
  apply List.map_congr_left
  intro p _
  simp [Function.comp, translate, rotate180, Prod.ext_iff]
  try omega

theorem binGrid270_translate (ps : List Point) (t : Point) (m0 M0 m1 M1 : Int) :
    binGrid270 (ps.map fun p => translate p t) (m0 + t.1) (M0 + t.1) (m1 + t.2) (M1 + t.2) =
      binGrid270 ps m0 M0 m1 M1 := by
  unfold binGrid270
  have hrows : ((M1 + t.2) - (m1 + t.2) + 1).toNat = (M1 - m1 + 1).toNat := by omega
  rw [hrows, List.map_map]
  apply congrArg
  apply List.map_congr_left
  intro p _
  simp [Function.comp, translate, rotate270, Prod.ext_iff]
  try omega

theorem bin_grid_map_translate (ps : List Point) (t : Point) (h : ps ≠ []) :
    (BinShape.canonical? (ps.map fun p => translate p t)).map BinShape.grid =
      (BinShape.canonical? ps).map BinShape.grid := by
  obtain ⟨p, l, rfl⟩ := List.exists_cons_of_ne_nil h
  obtain ⟨m0, h0⟩ : ∃ m, ((p :: l).map Prod.fst).min? = some m := ⟨_, rfl⟩
  obtain ⟨M0, h1⟩ : ∃ m, ((p :: l).map Prod.fst).max? = some m := ⟨_, rfl⟩
  obtain ⟨m1, h2⟩ : ∃ m, ((p :: l).map Prod.snd).min? = some m := ⟨_, rfl⟩
  obtain ⟨M1, h3⟩ : ∃ m, ((p :: l).map Prod.snd).max? = some m := ⟨_, rfl⟩
  have hfst : ((p :: l).map fun q => translate q t).map Prod.fst =
      ((p :: l).map Prod.fst).map fun v => v + t.1 := by
    rw [List.map_map, List.map_map]
    rfl
  have hsnd : ((p :: l).map fun q => translate q t).map Prod.snd =
      ((p :: l).map Prod.snd).map fun v => v + t.2 := by
    rw [List.map_map, List.map_map]
    rfl
  have h0T : (((p :: l).map fun q => translate q t).map Prod.fst).min? = some (m0 + t.1) := by
    rw [hfst, min?_map_add, h0]
    rfl
  have h1T : (((p :: l).map fun q => translate q t).map Prod.fst).max? = some (M0 + t.1) := by
    rw [hfst, max?_map_add, h1]
    rfl
  have h2T : (((p :: l).map fun q => translate q t).map Prod.snd).min? = some (m1 + t.2) := by
    rw [hsnd, min?_map_add, h2]
    rfl
  have h3T : (((p :: l).map fun q => translate q t).map Prod.snd).max? = some (M1 + t.2) := by
    rw [hsnd, max?_map_add, h3]
    rfl
  have hleft : BinShape.canonical? ((p :: l).map fun q => translate q t) =
      some (BinShape.canonicalCore ((p :: l).map fun q => translate q t)
        (m0 + t.1) (M0 + t.1) (m1 + t.2) (M1 + t.2)) := by
    simp only [BinShape.canonical?, Option.bind_eq_bind, h0T, h1T, h2T, h3T, Option.some_bind]
  have hright : BinShape.canonical? (p :: l) =
      some (BinShape.canonicalCore (p :: l) m0 M0 m1 M1) := by
    simp only [BinShape.canonical?, Option.bind_eq_bind, h0, h1, h2, h3, Option.some_bind]
  rw [hleft, hright]
  have hcand : binCandidates ((p :: l).map fun q => translate q t)
      (m0 + t.1) (M0 + t.1) (m1 + t.2) (M1 + t.2) = binCandidates (p :: l) m0 M0 m1 M1 := by
    unfold binCandidates
    rw [binGrid0_translate, binGrid90_translate, binGrid180_translate, binGrid270_translate]
  have hmaxL := canonicalCore_grid_isLexMax ((p :: l).map fun q => translate q t)
    (m0 + t.1) (M0 + t.1) (m1 + t.2) (M1 + t.2)
  rw [hcand] at hmaxL
  have hmaxR := canonicalCore_grid_isLexMax (p :: l) m0 M0 m1 M1
  simp only [Option.map_some']
  exact congrArg some (isLexMax_unique hmaxL hmaxR)

theorem Mat2.apply_padd (r : Mat2) (p t : Point) :
    r.apply (padd p t) = padd (r.apply p) (r.apply t) := by
  unfold Mat2.apply padd
  simp only [Prod.mk.injEq]
  constructor <;> ring

theorem minv_translate (A B c : Point) :
    BoundingBoxTwoPoints.minv ⟨padd A c, padd B c⟩ =
      padd (BoundingBoxTwoPoints.minv ⟨A, B⟩) c := by
  unfold BoundingBoxTwoPoints.minv padd
  simp only [Prod.mk.injEq]
  constructor <;> omega

theorem sub_translate (A B m c : Point) :
    BoundingBoxTwoPoints.sub ⟨padd A c, padd B c⟩ (padd m c) =
      BoundingBoxTwoPoints.sub ⟨A, B⟩ m := by
  unfold BoundingBoxTwoPoints.sub psub padd
  simp only [BoundingBoxTwoPoints.mk.injEq, Prod.mk.injEq]
  refine ⟨⟨?_, ?_⟩, ?_, ?_⟩ <;> omega

theorem psub_padd_cancel (p m c : Point) : psub (padd p c) (padd m c) = psub p m := by
  unfold psub padd
  simp only [Prod.mk.injEq]
  constructor <;> omega

/-- Translating the whole input (and its bounding box) leaves every
`rotate_shape` candidate unchanged. -/
theorem rotateShape_translate (ps : List Point) (t p0 p1 : Point) (r : Mat2) :
    rotateShape (ps.map fun p => translate p t) ⟨translate p0 t, translate p1 t⟩ r =
      rotateShape ps ⟨p0, p1⟩ r := by
  have htp : ∀ q : Point, translate q t = padd q t := fun _ => rfl
  simp only [rotateShape, BoundingBoxTwoPoints.mul, htp, Mat2.apply_padd, minv_translate,
    sub_translate, List.map_map]
  have hmap : ∀ m : Point,
      (fun p => psub (r.apply p) (padd m (r.apply t))) ∘ (fun p => padd p t) =
        fun p => psub (r.apply p) m := by
    intro m
    funext p
    show psub (r.apply (padd p t)) (padd m (r.apply t)) = psub (r.apply p) m
    rw [Mat2.apply_padd, psub_padd_cancel]
  rw [hmap]

theorem swg_grid_map_translate (ps : List Point) (t : Point) (h : ps ≠ []) :
    (ShapeWithGrid.new? (ps.map fun p => translate p t)).map ShapeWithGrid.grid =
      (ShapeWithGrid.new? ps).map ShapeWithGrid.grid := by
  obtain ⟨p, l, rfl⟩ := List.exists_cons_of_ne_nil h
  obtain ⟨m0, h0⟩ : ∃ m, ((p :: l).map Prod.fst).min? = some m := ⟨_, rfl⟩
  obtain ⟨M0, h1⟩ : ∃ m, ((p :: l).map Prod.fst).max? = some m := ⟨_, rfl⟩
  obtain ⟨m1, h2⟩ : ∃ m, ((p :: l).map Prod.snd).min? = some m := ⟨_, rfl⟩
  obtain ⟨M1, h3⟩ : ∃ m, ((p :: l).map Prod.snd).max? = some m := ⟨_, rfl⟩
  have hfst : ((p :: l).map fun q => translate q t).map Prod.fst =
      ((p :: l).map Prod.fst).map fun v => v + t.1 := by
    rw [List.map_map, List.map_map]
    rfl
  have hsnd : ((p :: l).map fun q => translate q t).map Prod.snd =
      ((p :: l).map Prod.snd).map fun v => v + t.2 := by
    rw [List.map_map, List.map_map]
    rfl
  have h0T : (((p :: l).map fun q => translate q t).map Prod.fst).min? = some (m0 + t.1) := by
    rw [hfst, min?_map_add, h0]
    rfl
  have h1T : (((p :: l).map fun q => translate q t).map Prod.fst).max? = some (M0 + t.1) := by
    rw [hfst, max?_map_add, h1]
    rfl
  have h2T : (((p :: l).map fun q => translate q t).map Prod.snd).min? = some (m1 + t.2) := by
    rw [hsnd, min?_map_add, h2]
    rfl
  have h3T : (((p :: l).map fun q => translate q t).map Prod.snd).max? = some (M1 + t.2) := by
    rw [hsnd, max?_map_add, h3]
    rfl
  have hb : BoundingBoxTwoPoints.fromPoints? (p :: l) = some ⟨(m0, m1), (M0, M1)⟩ := by
    simp only [BoundingBoxTwoPoints.fromPoints?, Option.bind_eq_bind, h0, h1, h2, h3,
      Option.some_bind]
  have hbT : BoundingBoxTwoPoints.fromPoints? ((p :: l).map fun q => translate q t) =
      some ⟨(m0 + t.1, m1 + t.2), (M0 + t.1, M1 + t.2)⟩ := by
    simp only [BoundingBoxTwoPoints.fromPoints?, Option.bind_eq_bind, h0T, h1T, h2T, h3T,
      Option.some_bind]
  obtain ⟨m, hm, _, _⟩ := swg_fold_isLexMin (p :: l) ⟨(m0, m1), (M0, M1)⟩
  have hboxT : (⟨(m0 + t.1, m1 + t.2), (M0 + t.1, M1 + t.2)⟩ : BoundingBoxTwoPoints) =
      ⟨translate (m0, m1) t, translate (M0, M1) t⟩ := rfl
  simp only [ShapeWithGrid.new?, Option.bind_eq_bind, hb, hbT, Option.some_bind, hboxT,
    rotateShape_translate, hm, Option.map_some']

/-- C9: canonicalization is translation-invariant.  For every non-empty
point set and every integer vector `t`, translating all input points by `t`
leaves the canonical grid of `BinShape::canonical` and of
`ShapeWithGrid::new` (whose realignment goes through
`BoundingBoxTwoPoints::from`) unchanged. -/
theorem c9_translation_invariance (ps : List Point) (t : Point) (h : ps ≠ []) :
    ((BinShape.canonical? (ps.map fun p => translate p t)).map BinShape.grid =
        (BinShape.canonical? ps).map BinShape.grid) ∧
    ((ShapeWithGrid.new? (ps.map fun p => translate p t)).map ShapeWithGrid.grid =
        (ShapeWithGrid.new? ps).map ShapeWithGrid.grid) :=
  ⟨bin_grid_map_translate ps t h, swg_grid_map_translate ps t h⟩

/-- Witness for `c9_translation_invariance` at the L-tromino translated by
`(-3, 7)`. -/
theorem c9_translation_invariance_witness :
    (([((0 : Int), (0 : Int)), (1, 0), (0, 1)] : List Point) ≠ []) ∧
    (((BinShape.canonical? (([((0 : Int), (0 : Int)), (1, 0), (0, 1)] : List Point).map
          fun p => translate p (-3, 7))).map BinShape.grid =
        (BinShape.canonical? [((0 : Int), (0 : Int)), (1, 0), (0, 1)]).map BinShape.grid) ∧
    ((ShapeWithGrid.new? (([((0 : Int), (0 : Int)), (1, 0), (0, 1)] : List Point).map
          fun p => translate p (-3, 7))).map ShapeWithGrid.grid =
        (ShapeWithGrid.new? [((0 : Int), (0 : Int)), (1, 0), (0, 1)]).map
          ShapeWithGrid.grid)) :=
  ⟨by decide,
    c9_translation_invariance [((0 : Int), (0 : Int)), (1, 0), (0, 1)] (-3, 7) (by decide)⟩

/-! ## Claim C10: totality exactly on non-empty input -/

/-- C10: the minimum/maximum extractions of all three constructors (and of
`BoundingBoxTwoPoints::from`) succeed exactly on non-empty point lists: on
non-empty input no `unwrap` can panic (the result is `some`), while the
empty list makes every constructor panic on `min().unwrap()` (modelled as
`none`). -/
theorem c10_nonempty_totality (ps : List Point) :
    ((BinShape.canonical? ps).isSome = true ↔ ps ≠ []) ∧
    ((BoundingBoxTwoPoints.fromPoints? ps).isSome = true ↔ ps ≠ []) ∧
    ((ShapeWithGrid.new? ps).isSome = true ↔ ps ≠ []) ∧
    ((ShapeMinimal.new? ps).isSome = true ↔ ps ≠ []) := by
  cases ps with
  | nil =>
    refine ⟨?_, ?_, ?_, ?_⟩ <;> simp [BinShape.canonical?, BoundingBoxTwoPoints.fromPoints?,
      ShapeWithGrid.new?, ShapeMinimal.new?]
  | cons p l =>
    obtain ⟨m0, h0⟩ : ∃ m, ((p :: l).map Prod.fst).min? = some m := ⟨_, rfl⟩
    obtain ⟨M0, h1⟩ : ∃ m, ((p :: l).map Prod.fst).max? = some m := ⟨_, rfl⟩
    obtain ⟨m1, h2⟩ : ∃ m, ((p :: l).map Prod.snd).min? = some m := ⟨_, rfl⟩
    obtain ⟨M1, h3⟩ : ∃ m, ((p :: l).map Prod.snd).max? = some m := ⟨_, rfl⟩
    have hcan : BinShape.canonical? (p :: l) =
        some (BinShape.canonicalCore (p :: l) m0 M0 m1 M1) := by
      simp only [BinShape.canonical?, Option.bind_eq_bind, h0, h1, h2, h3, Option.some_bind]
    have hb : BoundingBoxTwoPoints.fromPoints? (p :: l) = some ⟨(m0, m1), (M0, M1)⟩ := by
      simp only [BoundingBoxTwoPoints.fromPoints?, Option.bind_eq_bind, h0, h1, h2, h3,
        Option.some_bind]
    obtain ⟨m, hm, _, _⟩ := swg_fold_isLexMin (p :: l) ⟨(m0, m1), (M0, M1)⟩
    have hnew : ShapeWithGrid.new? (p :: l) = some ⟨p :: l, m.1, m.2⟩ := by
      simp only [ShapeWithGrid.new?, Option.bind_eq_bind, hb, Option.some_bind, hm]
    have hsm : (ShapeMinimal.new? (p :: l)).isSome = true := by
      simp only [ShapeMinimal.new?, Option.bind_eq_bind, h0, h1, h2, h3, Option.some_bind]
      rfl
    refine ⟨?_, ?_, ?_, ?_⟩ <;>
      simp [hcan, hb, hnew, hsm]

/-! ## Claim C5: the generation counts -/

set_option maxRecDepth 10000 in
/-- C5 counterexample: generation 4 contains 7 canonical shapes (the seven
one-sided tetrominoes under rotation-only equivalence), not the 5 claimed. -/
theorem c5_counterexample : (genPolys 4).length = 7 ∧ (genPolys 4).length ≠ 5 := by
  refine ⟨by decide, by decide⟩

set_option maxRecDepth 10000 in
/-- C5 (amended): the deduplicated generation sizes under rotation-only
equivalence are 1, 1, 2 and 7: generation 1 is exactly the single-point
shape at the origin, generation 2 the domino, generation 3 the two
trominoes, and generation 4 the seven one-sided tetrominoes (mirror-image
S/Z and L/J pairs stay distinct because only rotations are folded). -/
theorem c5_generation_counts :
    (genPolys 1).map BinShape.points = [[(0, 0)]] ∧
    (genPolys 1).length = 1 ∧ (genPolys 2).length = 1 ∧
    (genPolys 3).length = 2 ∧ (genPolys 4).length = 7 := by
  refine ⟨by decide, by decide, by decide, by decide, by decide⟩

/-! ## Claim C8: no capacity check, bits wrap -/

set_option maxRecDepth 10000 in
/-- C8: `BinShape::canonical` has no capacity check for the 64-bit packing
width.  With the release-mode shift semantics, the vertical line of 65
cells (which needs 65 bit positions) wraps its last bit onto bit 0 and
produces the same canonical grid as the vertical line of 64 cells: two
shapes with different cell counts compare equal under the grid-equality
contract.  (A debug build would panic on the shift instead; in neither
mode does the engine abort with a capacity error.) -/
theorem c8_wrap_collision :
    BinShape.beq
        ((BinShape.canonical? ((List.range 65).map fun i => ((0 : Int), (i : Int)))).getD
          dummyBinShape)
        ((BinShape.canonical? ((List.range 64).map fun i => ((0 : Int), (i : Int)))).getD
          dummyBinShape) = true ∧
    ((BinShape.canonical? ((List.range 65).map fun i => ((0 : Int), (i : Int)))).getD
        dummyBinShape).points.length = 65 ∧
    ((BinShape.canonical? ((List.range 64).map fun i => ((0 : Int), (i : Int)))).getD
        dummyBinShape).points.length = 64 := by
  refine ⟨by decide, by decide, by decide⟩

/-! ## Claim C7: the expansion counters -/

theorem firstDedup_go_nodup (l : List Point) : ∀ acc : List Point, acc.Nodup →
    (l.foldl (fun acc p => if p ∈ acc then acc else acc ++ [p]) acc).Nodup := by
  induction l with
  | nil => intro acc h; exact h
  | cons x xs ih =>
    intro acc h
    by_cases hx : x ∈ acc
    · simp only [List.foldl_cons, if_pos hx]
      exact ih acc h
    · simp only [List.foldl_cons, if_neg hx]
      apply ih
      rw [List.nodup_append]
      refine ⟨h, List.nodup_singleton x, ?_⟩
      intro a ha hax
      rw [List.mem_singleton] at hax
      subst hax
      exact hx ha

theorem firstDedup_go_mem (l : List Point) (a : Point) : ∀ acc : List Point,
    (a ∈ l.foldl (fun acc p => if p ∈ acc then acc else acc ++ [p]) acc ↔
      a ∈ acc ∨ a ∈ l) := by
  induction l with
  | nil => intro acc; simp
  | cons x xs ih =>
    intro acc
    by_cases hx : x ∈ acc
    · simp only [List.foldl_cons, if_pos hx]
      rw [ih]
      simp only [List.mem_cons]
      constructor
      · tauto
      · rintro (ha | rfl | ha) <;> tauto
    · simp only [List.foldl_cons, if_neg hx]
      rw [ih]
      simp only [List.mem_append, List.mem_singleton, List.mem_cons]
      tauto

theorem firstDedup_nodup (l : List Point) : (firstDedup l).Nodup :=
  firstDedup_go_nodup l [] List.nodup_nil

theorem firstDedup_mem (l : List Point) (a : Point) : a ∈ firstDedup l ↔ a ∈ l := by
  unfold firstDedup
  rw [firstDedup_go_mem]
  simp

theorem possiblePoints_nodup (s : BinShape) : (possiblePoints s).Nodup :=
  (firstDedup_nodup _).filter _

/-- Membership characterization of `possible_points`: a cell is offered for
canonicalization iff it is reachable as `p + move` and is not already
occupied — occupancy is the only exclusion rule. -/
theorem mem_possiblePoints (s : BinShape) (c : Point) :
    c ∈ possiblePoints s ↔
      ((∃ p ∈ s.points, ∃ mv ∈ MOVES, c = (p.1 + mv.1, p.2 + mv.2)) ∧ c ∉ s.points) := by
  unfold possiblePoints
  constructor
  · intro h
    rw [List.mem_filter] at h
    obtain ⟨hmem, hpred⟩ := h
    rw [firstDedup_mem, List.mem_flatMap] at hmem
    obtain ⟨p, hp, hc⟩ := hmem
    rw [List.mem_map] at hc
    obtain ⟨mv, hmv, hceq⟩ := hc
    subst hceq
    refine ⟨⟨p, hp, mv, hmv, rfl⟩, ?_⟩
    simpa using hpred
  · rintro ⟨⟨p, hp, mv, hmv, rfl⟩, hocc⟩
    rw [List.mem_filter, firstDedup_mem, List.mem_flatMap]
    refine ⟨⟨p, hp, ?_⟩, ?_⟩
    · rw [List.mem_map]
      exact ⟨mv, hmv, rfl⟩
    · simpa using hocc

/-- The set of candidate cells of one shape, written spec-side: every cell
reachable as `point + move` that is not occupied, counted once. -/
def candidateCells (s : BinShape) : Finset Point :=
  (s.points.toFinset.biUnion fun p =>
    (MOVES.map fun m => (p.1 + m.1, p.2 + m.2)).toFinset).filter fun c => c ∉ s.points

theorem possiblePoints_length_eq (s : BinShape) :
    (possiblePoints s).length = (candidateCells s).card := by
  rw [← List.toFinset_card_of_nodup (possiblePoints_nodup s)]
  congr 1
  ext c
  rw [List.mem_toFinset, mem_possiblePoints]
  simp only [candidateCells, Finset.mem_filter, Finset.mem_biUnion, List.mem_toFinset,
    List.mem_map]
  constructor
  · rintro ⟨⟨p, hp, mv, hmv, rfl⟩, hocc⟩
    exact ⟨⟨p, hp, mv, hmv, rfl⟩, hocc⟩
  · rintro ⟨⟨p, hp, mv, hmv, rfl⟩, hocc⟩
    exact ⟨⟨p, hp, mv, hmv, rfl⟩, hocc⟩

theorem expandStep_foldl_snd (l : List BinShape) : ∀ acc : List BinShape × Nat,
    (l.foldl
      (fun acc prev =>
        let possible := possiblePoints prev
        let tried := acc.2 + possible.length
        let newPolys := possible.foldl
          (fun np newPoint =>
            let newPoly := (BinShape.canonical? (prev.points ++ [newPoint])).getD dummyBinShape
            if np.any (fun s => BinShape.beq s newPoly) then np else np ++ [newPoly])
          acc.1
        (newPolys, tried))
      acc).2 = acc.2 + (l.map fun s => (possiblePoints s).length).sum := by
  induction l with
  | nil => intro acc; simp
  | cons s l ih =>
    intro acc
    rw [List.foldl_cons, ih]
    simp only [List.map_cons, List.sum_cons]
    omega

/-- C7 (amended): the `tried` counter accumulated by
`generate_polys_of_size` equals, per previous shape, the number of
*distinct* candidate cells that are not occupied (`unique()` collapses
duplicate `(point, move)` pairs before counting), and a candidate cell is
skipped iff it is already occupied.  Two counters are exposed per
generation (`tried` and the number of shapes found); the number of
canonicalizations performed equals `tried`. -/
theorem c7_tried_counter (prevPolys : List BinShape) :
    (expandStep prevPolys).2 = (prevPolys.map fun s => (candidateCells s).card).sum ∧
    ∀ s : BinShape, ∀ c : Point,
      c ∈ possiblePoints s ↔
        ((∃ p ∈ s.points, ∃ mv ∈ MOVES, c = (p.1 + mv.1, p.2 + mv.2)) ∧ c ∉ s.points) := by
  constructor
  · rw [expandStep, expandStep_foldl_snd]
    simp only [Nat.zero_add]
    congr 1
    apply List.map_congr_left
    intro s _
    exact possiblePoints_length_eq s
  · exact mem_possiblePoints

/-- The number of `(point, move)` pairs whose candidate cell is not
occupied, with no deduplication of repeated candidate cells (what the
claim says the `tried` counter measures). -/
def unoccupiedPairCount (s : BinShape) : Nat :=
  (s.points.flatMap fun p =>
    (MOVES.map fun m => ((p.1 + m.1 : Int), (p.2 + m.2 : Int))).filter fun c =>
      !(s.points.contains c)).length

set_option maxRecDepth 10000 in
/-- C7 counterexample: for the L-tromino shape, the `tried` counter of one
expansion step is 7 (distinct unoccupied candidate cells), while the number
of `(point, move)` pairs whose candidate is not occupied is 8 — the corner
cell is reachable by two different pairs and `unique()` counts it once. -/
theorem c7_counterexample :
    (expandStep [(BinShape.canonical? [((0 : Int), (0 : Int)), (1, 0), (0, 1)]).getD
        dummyBinShape]).2 = 7 ∧
    unoccupiedPairCount ((BinShape.canonical? [((0 : Int), (0 : Int)), (1, 0), (0, 1)]).getD
        dummyBinShape) = 8 ∧
    (7 : Nat) ≠ 8 := by
  refine ⟨by decide, by decide, by decide⟩

/-! ## Claim C4: expansion invariants -/

theorem canonicalCore_points (ps : List Point) (m0 M0 m1 M1 : Int) :
    (BinShape.canonicalCore ps m0 M0 m1 M1).points = ps := by
  simp only [BinShape.canonicalCore]
  split <;> rfl

theorem canonical_getD_points (ps : List Point) (h : ps ≠ []) :
    ((BinShape.canonical? ps).getD dummyBinShape).points = ps := by
  obtain ⟨p, l, rfl⟩ := List.exists_cons_of_ne_nil h
  obtain ⟨m0, h0⟩ : ∃ m, ((p :: l).map Prod.fst).min? = some m := ⟨_, rfl⟩
  obtain ⟨M0, h1⟩ : ∃ m, ((p :: l).map Prod.fst).max? = some m := ⟨_, rfl⟩
  obtain ⟨m1, h2⟩ : ∃ m, ((p :: l).map Prod.snd).min? = some m := ⟨_, rfl⟩
  obtain ⟨M1, h3⟩ : ∃ m, ((p :: l).map Prod.snd).max? = some m := ⟨_, rfl⟩
  have hcan : BinShape.canonical? (p :: l) =
      some (BinShape.canonicalCore (p :: l) m0 M0 m1 M1) := by
    simp only [BinShape.canonical?, Option.bind_eq_bind, h0, h1, h2, h3, Option.some_bind]
  rw [hcan]
  exact canonicalCore_points (p :: l) m0 M0 m1 M1

theorem mem_expand_inner (prev : BinShape) (cands : List Point) : ∀ (np : List BinShape)
    (s : BinShape),
    s ∈ cands.foldl
      (fun np newPoint =>
        let newPoly := (BinShape.canonical? (prev.points ++ [newPoint])).getD dummyBinShape
        if np.any (fun s => BinShape.beq s newPoly) then np else np ++ [newPoly])
      np →
    s ∈ np ∨ ∃ c ∈ cands, s = (BinShape.canonical? (prev.points ++ [c])).getD dummyBinShape := by
  induction cands with
  | nil => intro np s h; exact Or.inl h
  | cons c cs ih =>
    intro np s h
    rw [List.foldl_cons] at h
    rcases ih _ s h with hnp | ⟨c', hc', rfl⟩
    · by_cases hdup : np.any (fun t => BinShape.beq t
        ((BinShape.canonical? (prev.points ++ [c])).getD dummyBinShape)) = true
      · rw [if_pos hdup] at hnp
        exact Or.inl hnp
      · rw [if_neg hdup] at hnp
        rcases List.mem_append.mp hnp with hnp2 | hnew
        · exact Or.inl hnp2
        · rw [List.mem_singleton] at hnew
          exact Or.inr ⟨c, List.mem_cons_self _ _, hnew⟩
    · exact Or.inr ⟨c', List.mem_cons_of_mem _ hc', rfl⟩

theorem mem_expand_outer (l : List BinShape) : ∀ (acc : List BinShape × Nat) (s : BinShape),
    s ∈ (l.foldl
      (fun acc prev =>
        let possible := possiblePoints prev
        let tried := acc.2 + possible.length
        let newPolys := possible.foldl
          (fun np newPoint =>
            let newPoly := (BinShape.canonical? (prev.points ++ [newPoint])).getD dummyBinShape
            if np.any (fun s => BinShape.beq s newPoly) then np else np ++ [newPoly])
          acc.1
        (newPolys, tried))
      acc).1 →
    s ∈ acc.1 ∨ ∃ prev ∈ l, ∃ c ∈ possiblePoints prev,
      s = (BinShape.canonical? (prev.points ++ [c])).getD dummyBinShape := by
  induction l with
  | nil => intro acc s h; exact Or.inl h
  | cons t l ih =>
    intro acc s h
    rw [List.foldl_cons] at h
    rcases ih _ s h with hacc | ⟨prev, hprev, c, hc, rfl⟩
    · rcases mem_expand_inner t (possiblePoints t) acc.1 s hacc with hnp | ⟨c, hc, rfl⟩
      · exact Or.inl hnp
      · exact Or.inr ⟨t, List.mem_cons_self _ _, c, hc, rfl⟩
    · exact Or.inr ⟨prev, List.mem_cons_of_mem _ hprev, c, hc, rfl⟩

theorem mem_expandStep (prevPolys : List BinShape) (s : BinShape)
    (h : s ∈ (expandStep prevPolys).1) :
    ∃ prev ∈ prevPolys, ∃ c ∈ possiblePoints prev,
      s = (BinShape.canonical? (prev.points ++ [c])).getD dummyBinShape := by
  rcases mem_expand_outer prevPolys ([], 0) s h with habs | hgood
  · cases habs
  · exact hgood

theorem neg_move_mem : ∀ mv ∈ MOVES, ((-mv.1, -mv.2) : Point) ∈ MOVES := by decide

/-- The construction invariant of `generate_polys_of_size`, proved for all
generations by induction: every shape of generation `n ≥ 1` stores exactly
`n` distinct raw points, and for `n ≥ 2` every point has an axis-neighbor
in the set. -/
theorem genPolys_inv : ∀ n : Nat, 1 ≤ n → ∀ s ∈ genPolys n,
    s.points.length = n ∧ s.points.Nodup ∧
      (2 ≤ n → ∀ p ∈ s.points, ∃ mv ∈ MOVES, (p.1 + mv.1, p.2 + mv.2) ∈ s.points) := by
  intro n
  induction n with
  | zero => intro h; cases h
  | succ m ih =>
    intro _ s hs
    match m, ih, hs with
    | 0, _, hs =>
      rw [show genPolys 1 = [(BinShape.canonical? [((0 : Int), (0 : Int))]).getD dummyBinShape]
        from rfl, List.mem_singleton] at hs
      subst hs
      refine ⟨by decide, by decide, ?_⟩
      intro h2
      exact absurd h2 (by decide)
    | Nat.succ k, ih, hs =>
      rw [show genPolys (k + 2) = (expandStep (genPolys (k + 1))).1 from rfl] at hs
      obtain ⟨prev, hprev, c, hc, rfl⟩ := mem_expandStep _ _ hs
      obtain ⟨hlen, hnodup, hconn⟩ := ih (by omega) prev hprev
      have hne : prev.points ≠ [] := by
        intro hnil
        rw [hnil] at hlen
        simp at hlen
      have hpts : ((BinShape.canonical? (prev.points ++ [c])).getD dummyBinShape).points =
          prev.points ++ [c] := canonical_getD_points _ (by simp)
      obtain ⟨⟨p0, hp0, mv0, hmv0, rfl⟩, hocc⟩ := (mem_possiblePoints prev _).mp hc
      rw [hpts]
      refine ⟨?_, ?_, ?_⟩
      · simp [hlen]
      · rw [List.nodup_append]
        refine ⟨hnodup, List.nodup_singleton _, ?_⟩
        intro a ha hax
        rw [List.mem_singleton] at hax
        subst hax
        exact hocc ha
      · intro _ p hp
        rcases List.mem_append.mp hp with hpin | hpc
        · rcases Nat.lt_or_ge k 1 with hk | hk
          · -- previous generation is the single seed point: its neighbor is the new cell
            interval_cases k
            have hpp0 : p = p0 := by
              cases hq : prev.points with
              | nil => exact absurd hq hne
              | cons q r =>
                rw [hq] at hlen hpin hp0
                simp only [List.length_cons] at hlen
                have hr : r = [] := List.eq_nil_of_length_eq_zero (by omega)
                subst hr
                rw [List.mem_singleton] at hpin hp0
                rw [hpin, hp0]
            subst hpp0
            exact ⟨mv0, hmv0, by simp⟩
          · obtain ⟨mv, hmv, hnb⟩ := hconn (by omega) p hpin
            exact ⟨mv, hmv, by simp [hnb]⟩
        · rw [List.mem_singleton] at hpc
          subst hpc
          refine ⟨(-mv0.1, -mv0.2), neg_move_mem mv0 hmv0, ?_⟩
          have : ((p0.1 + mv0.1) + -mv0.1, (p0.2 + mv0.2) + -mv0.2) = (p0.1, p0.2) := by
            simp
          rw [this]
          simp [hp0]

/-- C4: for every `n ≥ 2`, every shape in generation `n` has exactly `n`
distinct points, and every point has at least one of its four
axis-neighbors in the set. -/
theorem c4_expansion_invariant (n : Nat) (hn : 2 ≤ n) :
    ∀ s ∈ genPolys n, s.points.length = n ∧ s.points.Nodup ∧
      ∀ p ∈ s.points, ∃ mv ∈ MOVES, (p.1 + mv.1, p.2 + mv.2) ∈ s.points := by
  intro s hs
  obtain ⟨h1, h2, h3⟩ := genPolys_inv n (by omega) s hs
  exact ⟨h1, h2, h3 hn⟩

set_option maxRecDepth 10000 in
/-- Witness for `c4_expansion_invariant` at `n = 2`. -/
theorem c4_expansion_invariant_witness :
    (2 ≤ 2) ∧ ∀ s ∈ genPolys 2, s.points.length = 2 ∧ s.points.Nodup ∧
      ∀ p ∈ s.points, ∃ mv ∈ MOVES, (p.1 + mv.1, p.2 + mv.2) ∈ s.points :=
  ⟨by decide, c4_expansion_invariant 2 (by decide)⟩

/-! ## Cell membership in packed grids -/

instance : Std.Antisymm (fun a b : Int => a ≤ b) := ⟨@fun _ _ h1 h2 => le_antisymm h1 h2⟩

theorem int_min?_spec {l : List Int} {a : Int} (h : l.min? = some a) :
    a ∈ l ∧ ∀ b ∈ l, a ≤ b := by
  have := (List.min?_eq_some_iff (fun a : Int => le_refl a) (fun a b => min_choice a b)
    (fun a b c => le_min_iff)).mp h
  exact ⟨this.1, this.2⟩

theorem int_max?_spec {l : List Int} {a : Int} (h : l.max? = some a) :
    a ∈ l ∧ ∀ b ∈ l, b ≤ a := by
  have := (List.max?_eq_some_iff (fun a : Int => le_refl a) (fun a b => max_choice a b)
    (fun a b c => max_le_iff)).mp h
  exact ⟨this.1, this.2⟩

theorem length_orBit (g : List Nat) (i : Nat) (y : Int) : (orBit g i y).length = g.length := by
  unfold orBit
  exact List.length_set g i _

theorem testBit_u64bit (y : Int) (x : Nat) (hy : 0 ≤ y) (hy64 : y < 64) :
    (u64bit y).testBit x = decide ((x : Int) = y) := by
  unfold u64bit
  rw [Nat.one_shiftLeft, Nat.testBit_two_pow, Int.emod_eq_of_lt hy hy64, decide_eq_decide]
  omega

theorem getD_orBit_ne (g : List Nat) (i j : Nat) (y : Int) (h : j ≠ i) :
    (orBit g i y).getD j 0 = g.getD j 0 := by
  unfold orBit
  rw [List.getD_eq_getElem?_getD, List.getD_eq_getElem?_getD,
    List.getElem?_set_ne (Ne.symm h)]
  rw [List.getD_eq_getElem?_getD]

theorem getD_orBit_eq (g : List Nat) (i : Nat) (y : Int) (h : i < g.length) :
    (orBit g i y).getD i 0 = g.getD i 0 ||| u64bit y := by
  unfold orBit
  rw [List.getD_eq_getElem?_getD, List.getElem?_set_self h]
  rfl

theorem testBit_packFold (pts : List Point) : ∀ (g : List Nat) (x y : Nat),
    (∀ p ∈ pts, 0 ≤ p.1 ∧ p.1 < 64 ∧ 0 ≤ p.2 ∧ (p.2 : Int) < g.length) →
    g.length ≤ 2 ^ 64 → x < 64 → y < g.length →
    (((pts.foldl (fun g p => orBit g (usize p.2) p.1) g).getD y 0).testBit x = true ↔
      ((g.getD y 0).testBit x = true ∨ ((x : Int), (y : Int)) ∈ pts)) := by
  induction pts with
  | nil =>
    intro g x y _ _ _ _
    simp
  | cons p ps ih =>
    intro g x y hr hb hx hy
    rw [List.foldl_cons]
    obtain ⟨hp1, hp164, hp2, hp2len⟩ := hr p (List.mem_cons_self _ _)
    have husize : usize p.2 = p.2.toNat := by
      unfold usize
      rw [Int.emod_eq_of_lt hp2 (by omega)]
    have hlen : (orBit g (usize p.2) p.1).length = g.length := length_orBit g _ p.1
    rw [ih (orBit g (usize p.2) p.1) x y
      (fun q hq => by rw [hlen]; exact hr q (List.mem_cons_of_mem p hq))
      (by rw [hlen]; exact hb) hx (by rw [hlen]; exact hy)]
    by_cases hyi : y = p.2.toNat
    · subst hyi
      rw [husize, getD_orBit_eq g _ p.1 (by omega), Nat.testBit_or,
        testBit_u64bit p.1 x hp1 hp164]
      simp only [List.mem_cons, Bool.or_eq_true, decide_eq_true_eq]
      constructor
      · rintro ((hold | hxx) | hmem)
        · exact Or.inl hold
        · refine Or.inr (Or.inl ?_)
          have hp : p = (p.1, p.2) := rfl
          rw [hp, Prod.mk.injEq]
          omega
        · exact Or.inr (Or.inr hmem)
      · rintro (hold | heq | hmem)
        · exact Or.inl (Or.inl hold)
        · refine Or.inl (Or.inr ?_)
          rw [Prod.ext_iff] at heq
          omega
        · exact Or.inr hmem
    · rw [husize, getD_orBit_ne g _ y p.1 hyi]
      simp only [List.mem_cons]
      have hne : ¬((x : Int), (y : Int)) = p := by
        intro he
        rw [Prod.ext_iff] at he
        apply hyi
        omega
      tauto

theorem length_packGridSnd (rows : Nat) (pts : List Point) :
    (packGridSnd rows pts).length = rows := by
  unfold packGridSnd
  have haux : ∀ (l : List Point) (g : List Nat),
      (l.foldl (fun g p => orBit g (usize p.2) p.1) g).length = g.length := by
    intro l
    induction l with
    | nil => intro g; rfl
    | cons q l ihl =>
      intro g
      rw [List.foldl_cons, ihl, length_orBit]
  rw [haux, List.length_replicate]

/-- A bit of the grid built by `packGridSnd` is set exactly at the cells of
the packed point list (within the 64-column capacity). -/
theorem testBit_packGridSnd (rows : Nat) (pts : List Point) (x y : Nat)
    (hr : ∀ p ∈ pts, 0 ≤ p.1 ∧ p.1 < 64 ∧ 0 ≤ p.2 ∧ (p.2 : Int) < rows)
    (hrows : rows ≤ 2 ^ 64) (hx : x < 64) (hy : y < rows) :
    (((packGridSnd rows pts).getD y 0).testBit x = true ↔
      ((x : Int), (y : Int)) ∈ pts) := by
  unfold packGridSnd
  rw [testBit_packFold pts (List.replicate rows 0) x y
    (by simpa using hr) (by simpa using hrows) hx (by simpa using hy)]
  have hz : (List.replicate rows 0).getD y 0 = 0 := by
    rw [List.getD_eq_getElem?_getD, List.getElem?_replicate]
    split <;> rfl
  rw [hz]
  simp

/-! ## Claim C6: which point list is stored -/

theorem sm_transformed_range (ps : List Point) (m0 M0 m1 M1 : Int) (r : Mat2)
    (hrot : r ∈ ROTATIONS) (hm0 : m0 ≤ M0) (hm1 : m1 ≤ M1)
    (hs0 : M0 - m0 < 64) (hs1 : M1 - m1 < 64)
    (hb : ∀ p ∈ ps, m0 ≤ p.1 ∧ p.1 ≤ M0 ∧ m1 ≤ p.2 ∧ p.2 ≤ M1) :
    (∀ q ∈ ps.map fun p =>
        padd (r.apply (psub p (m0, m1))) (smCandidate ps (m0, m1) (M0, M1) r).2.2,
      0 ≤ q.1 ∧ q.1 < 64 ∧ 0 ≤ q.2 ∧
        (q.2 : Int) < (((smCandidate ps (m0, m1) (M0, M1) r).1).length : Int)) ∧
    ((smCandidate ps (m0, m1) (M0, M1) r).1).length ≤ 2 ^ 64 := by
  simp only [ROTATIONS, List.mem_cons, List.not_mem_nil, or_false] at hrot
  rcases hrot with rfl | rfl | rfl | rfl <;>
  · constructor
    · intro q hq
      rw [List.mem_map] at hq
      obtain ⟨p, hp, rfl⟩ := hq
      obtain ⟨h1, h2, h3, h4⟩ := hb p hp
      dsimp only [smCandidate, Mat2.apply, psub, padd]
      simp only [length_packGridSnd, Int.abs_eq_natAbs, Int.toNat_natCast]
      refine ⟨by omega, by omega, by omega, by omega⟩
    · dsimp only [smCandidate, Mat2.apply, psub, padd]
      simp only [length_packGridSnd, Int.abs_eq_natAbs, Int.toNat_natCast]
      omega

/-- C6 (amended): `BinShape::canonical` and `ShapeWithGrid::new` store the
*raw input* point list unchanged, not the points of the winning rotation's
frame; only `ShapeMinimal::new` stores the input transformed by the
selected canonical rotation and realignment (sorted), and that stored list
describes exactly the cells set in its canonical grid. -/
theorem c6_stored_points (ps : List Point) (m0 M0 m1 M1 : Int)
    (h0 : (ps.map Prod.fst).min? = some m0) (h1 : (ps.map Prod.fst).max? = some M0)
    (h2 : (ps.map Prod.snd).min? = some m1) (h3 : (ps.map Prod.snd).max? = some M1)
    (hs0 : M0 - m0 < 64) (hs1 : M1 - m1 < 64) :
    (∃ b, BinShape.canonical? ps = some b ∧ b.points = ps) ∧
    (∃ s, ShapeWithGrid.new? ps = some s ∧ s.points = ps) ∧
    (∃ t : ShapeMinimal, ShapeMinimal.new? ps = some t ∧
      ∃ r ∈ ROTATIONS,
        ShapeMinimal.canonicalRotation ps (m0, m1) (M0, M1) =
          (r, (smCandidate ps (m0, m1) (M0, M1) r).2.2) ∧
        (∀ q ∈ t.points, 0 ≤ q.1 ∧ q.1 < 64 ∧ 0 ≤ q.2 ∧
          (q.2 : Int) < (((smCandidate ps (m0, m1) (M0, M1) r).1).length : Int)) ∧
        ∀ x y : Nat, x < 64 → y < ((smCandidate ps (m0, m1) (M0, M1) r).1).length →
          ((((smCandidate ps (m0, m1) (M0, M1) r).1).getD y 0).testBit x = true ↔
            ((x : Int), (y : Int)) ∈ t.points)) := by
  have hbounds : ∀ p ∈ ps, m0 ≤ p.1 ∧ p.1 ≤ M0 ∧ m1 ≤ p.2 ∧ p.2 ≤ M1 := by
    intro p hp
    exact ⟨(int_min?_spec h0).2 p.1 (List.mem_map_of_mem Prod.fst hp),
      (int_max?_spec h1).2 p.1 (List.mem_map_of_mem Prod.fst hp),
      (int_min?_spec h2).2 p.2 (List.mem_map_of_mem Prod.snd hp),
      (int_max?_spec h3).2 p.2 (List.mem_map_of_mem Prod.snd hp)⟩
  have hm0 : m0 ≤ M0 := by
    obtain ⟨hmem, _⟩ := int_min?_spec h0
    exact (int_max?_spec h1).2 m0 hmem
  have hm1 : m1 ≤ M1 := by
    obtain ⟨hmem, _⟩ := int_min?_spec h2
    exact (int_max?_spec h3).2 m1 hmem
  refine ⟨?_, ?_, ?_⟩
  · refine ⟨BinShape.canonicalCore ps m0 M0 m1 M1, ?_, canonicalCore_points ps m0 M0 m1 M1⟩
    simp only [BinShape.canonical?, Option.bind_eq_bind, h0, h1, h2, h3, Option.some_bind]
  · have hbox : BoundingBoxTwoPoints.fromPoints? ps = some ⟨(m0, m1), (M0, M1)⟩ := by
      simp only [BoundingBoxTwoPoints.fromPoints?, Option.bind_eq_bind, h0, h1, h2, h3,
        Option.some_bind]
    obtain ⟨m, hm, _, _⟩ := swg_fold_isLexMin ps ⟨(m0, m1), (M0, M1)⟩
    refine ⟨⟨ps, m.1, m.2⟩, ?_, rfl⟩
    simp only [ShapeWithGrid.new?, Option.bind_eq_bind, hbox, Option.some_bind, hm]
  · obtain ⟨r, hrot, heq, _⟩ := sm_canonicalRotation_isLexMin ps (m0, m1) (M0, M1)
    have hnew : ShapeMinimal.new? ps = some
        ⟨(ps.map fun p => padd (r.apply (psub p (m0, m1)))
            (smCandidate ps (m0, m1) (M0, M1) r).2.2).mergeSort pointLe⟩ := by
      simp only [ShapeMinimal.new?, Option.bind_eq_bind, h0, h1, h2, h3, Option.some_bind, heq]
    obtain ⟨hrange, hcap⟩ :=
      sm_transformed_range ps m0 M0 m1 M1 r hrot hm0 hm1 hs0 hs1 hbounds
    have hmemsort : ∀ q : Point,
        (q ∈ (ps.map fun p => padd (r.apply (psub p (m0, m1)))
            (smCandidate ps (m0, m1) (M0, M1) r).2.2).mergeSort pointLe ↔
          q ∈ ps.map fun p => padd (r.apply (psub p (m0, m1)))
            (smCandidate ps (m0, m1) (M0, M1) r).2.2) := by
      intro q
      exact (List.mergeSort_perm _ pointLe).mem_iff
    have hgrid : (smCandidate ps (m0, m1) (M0, M1) r).1 =
        packGridSnd ((smCandidate ps (m0, m1) (M0, M1) r).1).length
          (ps.map fun p => padd (r.apply (psub p (m0, m1)))
            (smCandidate ps (m0, m1) (M0, M1) r).2.2) := by
      conv_lhs => rw [show (smCandidate ps (m0, m1) (M0, M1) r).1 =
        packGridSnd ((|(Mat2.apply r (psub (M0, M1) (m0, m1))).2|).toNat + 1)
          (ps.map fun p => padd (r.apply (psub p (m0, m1)))
            (smCandidate ps (m0, m1) (M0, M1) r).2.2) from rfl]
      congr 1
      dsimp only [smCandidate]
      rw [length_packGridSnd]
    refine ⟨_, hnew, r, hrot, heq, ?_, ?_⟩
    · intro q hq
      rw [hmemsort q] at hq
      exact hrange q hq
    · intro x y hx hy
      rw [hmemsort (((x : Int), (y : Int)))]
      conv_lhs => rw [hgrid]
      rw [testBit_packGridSnd _ _ x y hrange hcap hx hy]

/-- Membership of a cell in a `BinShape` grid (rows indexed by the first
coordinate, one bit per second coordinate, as packed by `poly.rs`). -/
def binHasCell (g : List Nat) (p : Point) : Bool :=
  decide (0 ≤ p.1) && decide (0 ≤ p.2) && (g.getD p.1.toNat 0).testBit p.2.toNat

/-- C6 counterexample: for the input `[(1, 1)]`, `BinShape::canonical`
stores the raw point `(1, 1)`, while its stored canonical grid `[1]` has
its only set cell at `(0, 0)`: the stored point list is not in the winning
rotation's realigned frame and does not describe the cells of the stored
grid. -/
theorem c6_counterexample :
    ((BinShape.canonical? [((1 : Int), (1 : Int))]).getD dummyBinShape).points = [(1, 1)] ∧
    ((BinShape.canonical? [((1 : Int), (1 : Int))]).getD dummyBinShape).grid = [1] ∧
    binHasCell [1] (0, 0) = true ∧
    (((0 : Int), (0 : Int)) ∉
      ((BinShape.canonical? [((1 : Int), (1 : Int))]).getD dummyBinShape).points) := by
  refine ⟨by decide, by decide, by decide, by decide⟩

/-- Witness for `c6_stored_points` at the single point `(2, 5)`. -/
theorem c6_stored_points_witness :
    ((([((2 : Int), (5 : Int))] : List Point).map Prod.fst).min? = some 2 ∧
     (([((2 : Int), (5 : Int))] : List Point).map Prod.fst).max? = some 2 ∧
     (([((2 : Int), (5 : Int))] : List Point).map Prod.snd).min? = some 5 ∧
     (([((2 : Int), (5 : Int))] : List Point).map Prod.snd).max? = some 5) ∧
    ((∃ b, BinShape.canonical? [((2 : Int), (5 : Int))] = some b ∧
        b.points = [((2 : Int), (5 : Int))]) ∧
    (∃ s, ShapeWithGrid.new? [((2 : Int), (5 : Int))] = some s ∧
        s.points = [((2 : Int), (5 : Int))]) ∧
    (∃ t : ShapeMinimal, ShapeMinimal.new? [((2 : Int), (5 : Int))] = some t ∧
      ∃ r ∈ ROTATIONS,
        ShapeMinimal.canonicalRotation [((2 : Int), (5 : Int))] (2, 5) (2, 5) =
          (r, (smCandidate [((2 : Int), (5 : Int))] (2, 5) (2, 5) r).2.2) ∧
        (∀ q ∈ t.points, 0 ≤ q.1 ∧ q.1 < 64 ∧ 0 ≤ q.2 ∧
          (q.2 : Int) <
            (((smCandidate [((2 : Int), (5 : Int))] (2, 5) (2, 5) r).1).length : Int)) ∧
        ∀ x y : Nat, x < 64 →
          y < ((smCandidate [((2 : Int), (5 : Int))] (2, 5) (2, 5) r).1).length →
          ((((smCandidate [((2 : Int), (5 : Int))] (2, 5) (2, 5) r).1).getD y 0).testBit x =
              true ↔
            ((x : Int), (y : Int)) ∈ t.points))) :=
  ⟨⟨by decide, by decide, by decide, by decide⟩,
    c6_stored_points [((2 : Int), (5 : Int))] 2 2 5 5 (by decide) (by decide) (by decide)
      (by decide) (by decide) (by decide)⟩

/-! ## Claim C2: equality/hash contract and input-order independence -/

theorem orBit_comm (g : List Nat) (i₁ i₂ : Nat) (y₁ y₂ : Int) :
    orBit (orBit g i₁ y₁) i₂ y₂ = orBit (orBit g i₂ y₂) i₁ y₁ := by
  by_cases hij : i₁ = i₂
  · subst hij
    by_cases hlen : i₁ < g.length
    · unfold orBit
      rw [List.getD_eq_getElem?_getD (l := g.set i₁ _), List.getElem?_set_self hlen,
        List.getD_eq_getElem?_getD (l := g.set i₁ _), List.getElem?_set_self hlen]
      show (g.set i₁ _).set i₁ ((g.getD i₁ 0 ||| u64bit y₁) ||| u64bit y₂) =
        (g.set i₁ _).set i₁ ((g.getD i₁ 0 ||| u64bit y₂) ||| u64bit y₁)
      rw [List.set_set, List.set_set, Nat.or_assoc, Nat.or_assoc,
        Nat.or_comm (u64bit y₁) (u64bit y₂)]
    · have h1 : orBit g i₁ y₁ = g := by
        unfold orBit
        exact List.set_eq_of_length_le (by omega)
      have h2 : orBit g i₁ y₂ = g := by
        unfold orBit
        exact List.set_eq_of_length_le (by omega)
      rw [h1, h2, h1]
  · unfold orBit
    rw [List.getD_eq_getElem?_getD (l := g.set i₁ _), List.getElem?_set_ne hij,
      List.getD_eq_getElem?_getD (l := g.set i₂ _), List.getElem?_set_ne (Ne.symm hij),
      ← List.getD_eq_getElem?_getD, ← List.getD_eq_getElem?_getD,
      List.set_comm _ _ _ hij]

theorem packGridFst_perm (rows : Nat) {pts pts' : List Point} (h : List.Perm pts pts') :
    packGridFst rows pts = packGridFst rows pts' := by
  unfold packGridFst
  exact h.foldl_eq' (fun x _ y _ z => orBit_comm z (usize x.1) (usize y.1) x.2 y.2) _

theorem packGridSnd_perm (rows : Nat) {pts pts' : List Point} (h : List.Perm pts pts') :
    packGridSnd rows pts = packGridSnd rows pts' := by
  unfold packGridSnd
  exact h.foldl_eq' (fun x _ y _ z => orBit_comm z (usize x.2) (usize y.2) x.1 y.1) _

theorem min?_perm {l l' : List Int} (h : List.Perm l l') : l.min? = l'.min? := by
  cases hl : l with
  | nil =>
    subst hl
    rw [List.Perm.eq_nil (List.Perm.symm h)]
  | cons x xs =>
    subst hl
    cases hl' : l' with
    | nil =>
      exact absurd (List.Perm.eq_nil (hl' ▸ h)) (by simp)
    | cons y ys =>
      subst hl'
      obtain ⟨a, ha⟩ : ∃ a, (x :: xs).min? = some a := ⟨_, rfl⟩
      obtain ⟨b, hb⟩ : ∃ b, (y :: ys).min? = some b := ⟨_, rfl⟩
      rw [ha, hb]
      obtain ⟨hma, hla⟩ := int_min?_spec ha
      obtain ⟨hmb, hlb⟩ := int_min?_spec hb
      exact congrArg some (le_antisymm (hla b (h.symm.mem_iff.mp hmb))
        (hlb a (h.mem_iff.mp hma)))

theorem max?_perm {l l' : List Int} (h : List.Perm l l') : l.max? = l'.max? := by
  cases hl : l with
  | nil =>
    subst hl
    rw [List.Perm.eq_nil (List.Perm.symm h)]
  | cons x xs =>
    subst hl
    cases hl' : l' with
    | nil =>
      exact absurd (List.Perm.eq_nil (hl' ▸ h)) (by simp)
    | cons y ys =>
      subst hl'
      obtain ⟨a, ha⟩ : ∃ a, (x :: xs).max? = some a := ⟨_, rfl⟩
      obtain ⟨b, hb⟩ : ∃ b, (y :: ys).max? = some b := ⟨_, rfl⟩
      rw [ha, hb]
      obtain ⟨hma, hla⟩ := int_max?_spec ha
      obtain ⟨hmb, hlb⟩ := int_max?_spec hb
      exact congrArg some (le_antisymm (hlb a (h.mem_iff.mp hma))
        (hla b (h.symm.mem_iff.mp hmb)))

theorem bin_grid_perm (ps qs : List Point) (hperm : List.Perm ps qs) (h : ps ≠ []) :
    (BinShape.canonical? ps).map BinShape.grid = (BinShape.canonical? qs).map BinShape.grid := by
  obtain ⟨p, l, rfl⟩ := List.exists_cons_of_ne_nil h
  obtain ⟨m0, h0⟩ : ∃ m, ((p :: l).map Prod.fst).min? = some m := ⟨_, rfl⟩
  obtain ⟨M0, h1⟩ : ∃ m, ((p :: l).map Prod.fst).max? = some m := ⟨_, rfl⟩
  obtain ⟨m1, h2⟩ : ∃ m, ((p :: l).map Prod.snd).min? = some m := ⟨_, rfl⟩
  obtain ⟨M1, h3⟩ : ∃ m, ((p :: l).map Prod.snd).max? = some m := ⟨_, rfl⟩
  have h0q : (qs.map Prod.fst).min? = some m0 := by
    rw [← min?_perm (hperm.map Prod.fst)]
    exact h0
  have h1q : (qs.map Prod.fst).max? = some M0 := by
    rw [← max?_perm (hperm.map Prod.fst)]
    exact h1
  have h2q : (qs.map Prod.snd).min? = some m1 := by
    rw [← min?_perm (hperm.map Prod.snd)]
    exact h2
  have h3q : (qs.map Prod.snd).max? = some M1 := by
    rw [← max?_perm (hperm.map Prod.snd)]
    exact h3
  have hleft : BinShape.canonical? (p :: l) =
      some (BinShape.canonicalCore (p :: l) m0 M0 m1 M1) := by
    simp only [BinShape.canonical?, Option.bind_eq_bind, h0, h1, h2, h3, Option.some_bind]
  have hright : BinShape.canonical? qs = some (BinShape.canonicalCore qs m0 M0 m1 M1) := by
    simp only [BinShape.canonical?, Option.bind_eq_bind, h0q, h1q, h2q, h3q, Option.some_bind]
  rw [hleft, hright]
  have hcand : binCandidates (p :: l) m0 M0 m1 M1 = binCandidates qs m0 M0 m1 M1 := by
    unfold binCandidates binGrid0 binGrid90 binGrid180 binGrid270
    rw [packGridFst_perm _ (hperm.map _), packGridFst_perm _ (hperm.map _),
      packGridFst_perm _ (hperm.map _), packGridFst_perm _ (hperm.map _)]
  have hmaxL := canonicalCore_grid_isLexMax (p :: l) m0 M0 m1 M1
  rw [hcand] at hmaxL
  have hmaxR := canonicalCore_grid_isLexMax qs m0 M0 m1 M1
  simp only [Option.map_some']
  exact congrArg some (isLexMax_unique hmaxL hmaxR)

theorem swg_grid_perm (ps qs : List Point) (hperm : List.Perm ps qs) (h : ps ≠ []) :
    (ShapeWithGrid.new? ps).map ShapeWithGrid.grid =
      (ShapeWithGrid.new? qs).map ShapeWithGrid.grid := by
  obtain ⟨p, l, rfl⟩ := List.exists_cons_of_ne_nil h
  obtain ⟨m0, h0⟩ : ∃ m, ((p :: l).map Prod.fst).min? = some m := ⟨_, rfl⟩
  obtain ⟨M0, h1⟩ : ∃ m, ((p :: l).map Prod.fst).max? = some m := ⟨_, rfl⟩
  obtain ⟨m1, h2⟩ : ∃ m, ((p :: l).map Prod.snd).min? = some m := ⟨_, rfl⟩
  obtain ⟨M1, h3⟩ : ∃ m, ((p :: l).map Prod.snd).max? = some m := ⟨_, rfl⟩
  have h0q : (qs.map Prod.fst).min? = some m0 := by
    rw [← min?_perm (hperm.map Prod.fst)]
    exact h0
  have h1q : (qs.map Prod.fst).max? = some M0 := by
    rw [← max?_perm (hperm.map Prod.fst)]
    exact h1
  have h2q : (qs.map Prod.snd).min? = some m1 := by
    rw [← min?_perm (hperm.map Prod.snd)]
    exact h2
  have h3q : (qs.map Prod.snd).max? = some M1 := by
    rw [← max?_perm (hperm.map Prod.snd)]
    exact h3
  have hbps : BoundingBoxTwoPoints.fromPoints? (p :: l) = some ⟨(m0, m1), (M0, M1)⟩ := by
    simp only [BoundingBoxTwoPoints.fromPoints?, Option.bind_eq_bind, h0, h1, h2, h3,
      Option.some_bind]
  have hbqs : BoundingBoxTwoPoints.fromPoints? qs = some ⟨(m0, m1), (M0, M1)⟩ := by
    simp only [BoundingBoxTwoPoints.fromPoints?, Option.bind_eq_bind, h0q, h1q, h2q, h3q,
      Option.some_bind]
  have hrs : ∀ r, rotateShape (p :: l) ⟨(m0, m1), (M0, M1)⟩ r =
      rotateShape qs ⟨(m0, m1), (M0, M1)⟩ r := by
    intro r
    unfold rotateShape
    exact congrArg (Prod.mk _) (packGridSnd_perm _ (hperm.map _))
  obtain ⟨m, hm, _, _⟩ := swg_fold_isLexMin qs ⟨(m0, m1), (M0, M1)⟩
  simp only [ShapeWithGrid.new?, Option.bind_eq_bind, hbps, hbqs, Option.some_bind, hrs, hm,
    Option.map_some']

theorem pointLe_trans (a b c : Point) (hab : pointLe a b = true) (hbc : pointLe b c = true) :
    pointLe a c = true := by
  unfold pointLe at *
  simp only [Bool.or_eq_true, Bool.and_eq_true, decide_eq_true_eq, beq_iff_eq] at *
  omega

theorem pointLe_total (a b : Point) : (pointLe a b || pointLe b a) = true := by
  unfold pointLe
  simp only [Bool.or_eq_true, Bool.and_eq_true, decide_eq_true_eq, beq_iff_eq]
  omega

theorem pointLe_antisymm (a b : Point) (hab : pointLe a b = true) (hba : pointLe b a = true) :
    a = b := by
  unfold pointLe at *
  simp only [Bool.or_eq_true, Bool.and_eq_true, decide_eq_true_eq, beq_iff_eq] at *
  rw [Prod.ext_iff]
  omega

theorem sm_new_perm (ps qs : List Point) (hperm : List.Perm ps qs) (h : ps ≠ []) :
    ShapeMinimal.new? ps = ShapeMinimal.new? qs := by
  obtain ⟨p, l, rfl⟩ := List.exists_cons_of_ne_nil h
  obtain ⟨m0, h0⟩ : ∃ m, ((p :: l).map Prod.fst).min? = some m := ⟨_, rfl⟩
  obtain ⟨M0, h1⟩ : ∃ m, ((p :: l).map Prod.fst).max? = some m := ⟨_, rfl⟩
  obtain ⟨m1, h2⟩ : ∃ m, ((p :: l).map Prod.snd).min? = some m := ⟨_, rfl⟩
  obtain ⟨M1, h3⟩ : ∃ m, ((p :: l).map Prod.snd).max? = some m := ⟨_, rfl⟩
  have h0q : (qs.map Prod.fst).min? = some m0 := by
    rw [← min?_perm (hperm.map Prod.fst)]
    exact h0
  have h1q : (qs.map Prod.fst).max? = some M0 := by
    rw [← max?_perm (hperm.map Prod.fst)]
    exact h1
  have h2q : (qs.map Prod.snd).min? = some m1 := by
    rw [← min?_perm (hperm.map Prod.snd)]
    exact h2
  have h3q : (qs.map Prod.snd).max? = some M1 := by
    rw [← max?_perm (hperm.map Prod.snd)]
    exact h3
  have hsc : ∀ r, smCandidate (p :: l) (m0, m1) (M0, M1) r =
      smCandidate qs (m0, m1) (M0, M1) r := by
    intro r
    simp only [smCandidate]
    rw [packGridSnd_perm _ (hperm.map _)]
  have hcr : ShapeMinimal.canonicalRotation (p :: l) (m0, m1) (M0, M1) =
      ShapeMinimal.canonicalRotation qs (m0, m1) (M0, M1) := by
    unfold ShapeMinimal.canonicalRotation
    rw [List.map_congr_left fun r _ => hsc r]
  simp only [ShapeMinimal.new?, Option.bind_eq_bind, h0, h1, h2, h3, h0q, h1q, h2q, h3q,
    Option.some_bind, hcr]
  have hpermT : List.Perm
      ((p :: l).map fun q => padd ((ShapeMinimal.canonicalRotation qs (m0, m1) (M0, M1)).1.apply
        (psub q (m0, m1))) (ShapeMinimal.canonicalRotation qs (m0, m1) (M0, M1)).2)
      (qs.map fun q => padd ((ShapeMinimal.canonicalRotation qs (m0, m1) (M0, M1)).1.apply
        (psub q (m0, m1))) (ShapeMinimal.canonicalRotation qs (m0, m1) (M0, M1)).2) :=
    hperm.map _
  have hanti : IsAntisymm Point fun a b => pointLe a b = true := ⟨pointLe_antisymm⟩
  have hsorted : ∀ pts : List Point,
      List.Sorted (fun a b => pointLe a b = true) (pts.mergeSort pointLe) := fun pts =>
    List.sorted_mergeSort pointLe_trans pointLe_total pts
  have := @List.eq_of_perm_of_sorted Point (fun a b => pointLe a b = true) hanti _ _
    (((List.mergeSort_perm _ pointLe).trans hpermT).trans
      (List.mergeSort_perm _ pointLe).symm)
    (hsorted _) (hsorted _)
  rw [this]

/-- C2: Shape equality compares only the canonical grid, the hash is a
function of exactly the hashed canonical data, and the order of the raw
input points has no effect: for any permutation of a non-empty input, all
three constructors produce identical canonical data (identical grids for
`BinShape`/`ShapeWithGrid`, identical canonical point list for
`ShapeMinimal`), hence equal Shapes with equal hashes. -/
theorem c2_equality_hash_contract (ps qs : List Point) (hperm : List.Perm ps qs)
    (h : ps ≠ []) :
    (∀ a b : ShapeWithGrid, (ShapeWithGrid.beq a b = true ↔ a.grid = b.grid) ∧
      (ShapeWithGrid.beq a b = true → a.hashInput = b.hashInput)) ∧
    (∀ a b : BinShape, BinShape.beq a b = true ↔ a.grid = b.grid) ∧
    (∀ a b : ShapeMinimal, a = b → a.hashInput = b.hashInput) ∧
    ((BinShape.canonical? ps).map BinShape.grid = (BinShape.canonical? qs).map BinShape.grid) ∧
    ((ShapeWithGrid.new? ps).map ShapeWithGrid.grid =
      (ShapeWithGrid.new? qs).map ShapeWithGrid.grid) ∧
    ShapeMinimal.new? ps = ShapeMinimal.new? qs := by
  refine ⟨?_, ?_, ?_, ?_, ?_, ?_⟩
  · intro a b
    constructor
    · unfold ShapeWithGrid.beq
      exact beq_iff_eq
    · intro hab
      unfold ShapeWithGrid.hashInput
      unfold ShapeWithGrid.beq at hab
      exact beq_iff_eq.mp hab
  · intro a b
    unfold BinShape.beq
    exact beq_iff_eq
  · intro a b hab
    rw [hab]
  · exact bin_grid_perm ps qs hperm h
  · exact swg_grid_perm ps qs hperm h
  · exact sm_new_perm ps qs hperm h

/-- Witness for `c2_equality_hash_contract` at the domino given in its two
input orders. -/
theorem c2_equality_hash_contract_witness :
    (List.Perm ([((0 : Int), (0 : Int)), (1, 0)] : List Point) [(1, 0), (0, 0)] ∧
      ([((0 : Int), (0 : Int)), (1, 0)] : List Point) ≠ []) ∧
    ((∀ a b : ShapeWithGrid, (ShapeWithGrid.beq a b = true ↔ a.grid = b.grid) ∧
      (ShapeWithGrid.beq a b = true → a.hashInput = b.hashInput)) ∧
    (∀ a b : BinShape, BinShape.beq a b = true ↔ a.grid = b.grid) ∧
    (∀ a b : ShapeMinimal, a = b → a.hashInput = b.hashInput) ∧
    ((BinShape.canonical? [((0 : Int), (0 : Int)), (1, 0)]).map BinShape.grid =
      (BinShape.canonical? [(1, 0), (0, 0)]).map BinShape.grid) ∧
    ((ShapeWithGrid.new? [((0 : Int), (0 : Int)), (1, 0)]).map ShapeWithGrid.grid =
      (ShapeWithGrid.new? [(1, 0), (0, 0)]).map ShapeWithGrid.grid) ∧
    ShapeMinimal.new? [((0 : Int), (0 : Int)), (1, 0)] = ShapeMinimal.new? [(1, 0), (0, 0)]) :=
  ⟨⟨by decide, by decide⟩,
    c2_equality_hash_contract [((0 : Int), (0 : Int)), (1, 0)] [(1, 0), (0, 0)]
      (by decide) (by decide)⟩

end Polycubes
